import Mathlib

/-!
Verification development for the codemap code-intelligence indexer.

The Rust sources are shallowly embedded: Rust strings are modelled as
`List Char` (ASCII fragment: the repository's byte-indexed operations and
character-indexed operations agree on ASCII text, which is noted wherever
it matters), SQLite tables are lists of rows storing the same string
encodings the schema stores, and fallible stores are modelled with
`Except`.  Every definition mirrors one function of the sources
(`src/types.rs`, `src/db/mod.rs`, `src/db/schema.rs`, `src/lib.rs`,
`src/extraction/mod.rs`, `src/graph/mod.rs`, `src/context/mod.rs`).
-/

namespace Codemap

/-- Rust `String` / `&str`, modelled as its character list. -/
abbrev Str := List Char

/-- Rust `char::to_lowercase` restricted to ASCII (`Char.toLower` maps
exactly the letters `A`–`Z`); the repository only lowercases queries,
names and file extensions, which are ASCII in scope. -/
def lowerStr (s : Str) : Str := s.map Char.toLower

/-- Rust `str::contains(&str)` (substring test). -/
def strContains (hay sub : Str) : Bool := hay.tails.any (fun t => sub.isPrefixOf t)

/-- Drop one trailing carriage return, as Rust `str::lines` does per line. -/
def dropTrailingCr (s : Str) : Str :=
  if s.getLast? = some '\r' then s.dropLast else s

/-- Rust `str::lines().collect()`: split on `'\n'`, dropping the final empty
piece produced by a trailing newline, and stripping one `'\r'` per line. -/
def rustLines (s : Str) : List Str :=
  if s = [] then []
  else
    let parts := s.splitOn '\n'
    let parts := if s.getLast? = some '\n' then parts.dropLast else parts
    parts.map dropTrailingCr

/-- Rust `str::trim` (ASCII whitespace fragment). -/
def rustTrim (s : Str) : Str :=
  ((s.dropWhile Char.isWhitespace).reverse.dropWhile Char.isWhitespace).reverse

/-- First line of a Rust string: `text.lines().next().unwrap_or("")`. -/
def firstLine (s : Str) : Str := dropTrailingCr (s.takeWhile (fun c => c ≠ '\n'))

/-- Rust `text.split('{').next().unwrap_or(text)`: the part before the
first opening brace. -/
def beforeBrace (s : Str) : Str := s.takeWhile (fun c => c ≠ '\x7b')

-- ===========================================================================
-- src/types.rs: the type model
-- ===========================================================================

/-- `NodeKind` from src/types.rs. -/
inductive NodeKind where
  | File | Module | Class | Struct | Interface | Trait | Protocol
  | Function | Method | Property | Field | Variable | Constant
  | Enum | EnumMember | TypeAlias | Namespace | Parameter
  | Import | Export | Route | Component
deriving DecidableEq, Repr

/-- `NodeKind::as_str` from src/types.rs. -/
def NodeKind.as_str : NodeKind → Str
  | .File => "file".toList
  | .Module => "module".toList
  | .Class => "class".toList
  | .Struct => "struct".toList
  | .Interface => "interface".toList
  | .Trait => "trait".toList
  | .Protocol => "protocol".toList
  | .Function => "function".toList
  | .Method => "method".toList
  | .Property => "property".toList
  | .Field => "field".toList
  | .Variable => "variable".toList
  | .Constant => "constant".toList
  | .Enum => "enum".toList
  | .EnumMember => "enum_member".toList
  | .TypeAlias => "type_alias".toList
  | .Namespace => "namespace".toList
  | .Parameter => "parameter".toList
  | .Import => "import".toList
  | .Export => "export".toList
  | .Route => "route".toList
  | .Component => "component".toList

/-- `NodeKind::from_str` (used by src/db/mod.rs as `NodeKind::parse`). -/
def NodeKind.parse (s : Str) : Option NodeKind :=
  if s = ("file".toList) then some .File
  else if s = ("module".toList) then some .Module
  else if s = ("class".toList) then some .Class
  else if s = ("struct".toList) then some .Struct
  else if s = ("interface".toList) then some .Interface
  else if s = ("trait".toList) then some .Trait
  else if s = ("protocol".toList) then some .Protocol
  else if s = ("function".toList) then some .Function
  else if s = ("method".toList) then some .Method
  else if s = ("property".toList) then some .Property
  else if s = ("field".toList) then some .Field
  else if s = ("variable".toList) then some .Variable
  else if s = ("constant".toList) then some .Constant
  else if s = ("enum".toList) then some .Enum
  else if s = ("enum_member".toList) then some .EnumMember
  else if s = ("type_alias".toList) then some .TypeAlias
  else if s = ("namespace".toList) then some .Namespace
  else if s = ("parameter".toList) then some .Parameter
  else if s = ("import".toList) then some .Import
  else if s = ("export".toList) then some .Export
  else if s = ("route".toList) then some .Route
  else if s = ("component".toList) then some .Component
  else none

/-- `EdgeKind` from src/types.rs. -/
inductive EdgeKind where
  | Contains | Calls | Imports | Exports | Extends | Implements
  | References | TypeOf | Returns | Instantiates | Overrides | Decorates
deriving DecidableEq, Repr

/-- `EdgeKind::as_str` from src/types.rs. -/
def EdgeKind.as_str : EdgeKind → Str
  | .Contains => "contains".toList
  | .Calls => "calls".toList
  | .Imports => "imports".toList
  | .Exports => "exports".toList
  | .Extends => "extends".toList
  | .Implements => "implements".toList
  | .References => "references".toList
  | .TypeOf => "type_of".toList
  | .Returns => "returns".toList
  | .Instantiates => "instantiates".toList
  | .Overrides => "overrides".toList
  | .Decorates => "decorates".toList

/-- `EdgeKind::from_str` (used by src/db/mod.rs as `EdgeKind::parse`). -/
def EdgeKind.parse (s : Str) : Option EdgeKind :=
  if s = ("contains".toList) then some .Contains
  else if s = ("calls".toList) then some .Calls
  else if s = ("imports".toList) then some .Imports
  else if s = ("exports".toList) then some .Exports
  else if s = ("extends".toList) then some .Extends
  else if s = ("implements".toList) then some .Implements
  else if s = ("references".toList) then some .References
  else if s = ("type_of".toList) then some .TypeOf
  else if s = ("returns".toList) then some .Returns
  else if s = ("instantiates".toList) then some .Instantiates
  else if s = ("overrides".toList) then some .Overrides
  else if s = ("decorates".toList) then some .Decorates
  else none

/-- `Language` from src/types.rs. -/
inductive Language where
  | Rust | TypeScript | JavaScript | Tsx | Jsx | Python | Go | Java
  | C | Cpp | CSharp | Php | Ruby | Swift | Kotlin | Unknown
deriving DecidableEq, Repr

/-- `Language::from_extension` from src/types.rs (`ext.to_lowercase()`
matched against the literal extension strings). -/
def Language.from_extension (ext : Str) : Language :=
  ext_match (lowerStr ext)
where
  /-- The `match ext.to_lowercase().as_str()` arms. -/
  ext_match (e : Str) : Language :=
  if e = ("rs".toList) then .Rust
  else if e = ("ts".toList) then .TypeScript
  else if e = ("tsx".toList) then .Tsx
  else if e = ("js".toList) ∨ e = ("mjs".toList) ∨ e = ("cjs".toList) then .JavaScript
  else if e = ("jsx".toList) then .Jsx
  else if e = ("py".toList) ∨ e = ("pyi".toList) then .Python
  else if e = ("go".toList) then .Go
  else if e = ("java".toList) then .Java
  else if e = ("c".toList) ∨ e = ("h".toList) then .C
  else if e = ("cpp".toList) ∨ e = ("cc".toList) ∨ e = ("cxx".toList)
        ∨ e = ("hpp".toList) ∨ e = ("hxx".toList) then .Cpp
  else if e = ("cs".toList) then .CSharp
  else if e = ("php".toList) then .Php
  else if e = ("rb".toList) then .Ruby
  else if e = ("swift".toList) then .Swift
  else if e = ("kt".toList) ∨ e = ("kts".toList) then .Kotlin
  else .Unknown

/-- `Language::as_str` from src/types.rs. -/
def Language.as_str : Language → Str
  | .Rust => "rust".toList
  | .TypeScript => "typescript".toList
  | .JavaScript => "javascript".toList
  | .Tsx => "tsx".toList
  | .Jsx => "jsx".toList
  | .Python => "python".toList
  | .Go => "go".toList
  | .Java => "java".toList
  | .C => "c".toList
  | .Cpp => "cpp".toList
  | .CSharp => "csharp".toList
  | .Php => "php".toList
  | .Ruby => "ruby".toList
  | .Swift => "swift".toList
  | .Kotlin => "kotlin".toList
  | .Unknown => "unknown".toList

/-- Total decoder `Language::parse` used by src/db/mod.rs when reading node
rows.  The sources call it but define only `as_str`/`from_extension` in
src/types.rs; it decodes the `as_str` encodings, defaulting to `Unknown`,
matching its uses (`Language::parse(&row.get::<_, String>(15))` with no
`unwrap_or`, mirroring `Visibility::from_str`'s total shape). -/
def Language.parse (s : Str) : Language :=
  if s = ("rust".toList) then .Rust
  else if s = ("typescript".toList) then .TypeScript
  else if s = ("javascript".toList) then .JavaScript
  else if s = ("tsx".toList) then .Tsx
  else if s = ("jsx".toList) then .Jsx
  else if s = ("python".toList) then .Python
  else if s = ("go".toList) then .Go
  else if s = ("java".toList) then .Java
  else if s = ("c".toList) then .C
  else if s = ("cpp".toList) then .Cpp
  else if s = ("csharp".toList) then .CSharp
  else if s = ("php".toList) then .Php
  else if s = ("rb".toList) ∨ s = ("ruby".toList) then .Ruby
  else if s = ("swift".toList) then .Swift
  else if s = ("kotlin".toList) then .Kotlin
  else .Unknown

/-- `Visibility` from src/types.rs. -/
inductive Visibility where
  | Public | Private | Protected | Internal | Unknown
deriving DecidableEq, Repr

/-- `Visibility::as_str` from src/types.rs. -/
def Visibility.as_str : Visibility → Str
  | .Public => "public".toList
  | .Private => "private".toList
  | .Protected => "protected".toList
  | .Internal => "internal".toList
  | .Unknown => "unknown".toList

/-- `Visibility::from_str` from src/types.rs (total, used by src/db/mod.rs
as `Visibility::parse`). -/
def Visibility.parse (s : Str) : Visibility :=
  if s = ("public".toList) ∨ s = ("pub".toList) then .Public
  else if s = ("private".toList) ∨ s = ("priv".toList) then .Private
  else if s = ("protected".toList) then .Protected
  else if s = ("internal".toList) then .Internal
  else .Unknown

-- ===========================================================================
-- Records of src/types.rs
-- ===========================================================================

/-- `Node` from src/types.rs (`i64` ids as `Int`, `u32` positions as `Nat`). -/
structure Node where
  id : Int
  kind : NodeKind
  name : Str
  qualified_name : Option Str
  file_path : Str
  start_line : Nat
  end_line : Nat
  start_column : Nat
  end_column : Nat
  signature : Option Str
  visibility : Visibility
  docstring : Option Str
  is_async : Bool
  is_static : Bool
  is_exported : Bool
  language : Language
deriving DecidableEq, Repr

/-- `Edge` from src/types.rs. -/
structure Edge where
  id : Int
  source_id : Int
  target_id : Int
  kind : EdgeKind
  file_path : Option Str
  line : Option Nat
  column : Option Nat
deriving DecidableEq, Repr

/-- `FileRecord` from src/types.rs. -/
structure FileRecord where
  path : Str
  content_hash : Str
  language : Language
  size : Nat
  modified_at : Int
  indexed_at : Int
  node_count : Nat
deriving DecidableEq, Repr

/-- `UnresolvedReference` from src/types.rs. -/
structure UnresolvedReference where
  source_node_id : Int
  reference_name : Str
  kind : EdgeKind
  file_path : Str
  line : Nat
  column : Nat
deriving DecidableEq, Repr

/-- `ExtractionError` from src/types.rs. -/
structure ExtractionError where
  message : Str
  file_path : Str
  line : Option Nat
  column : Option Nat
deriving DecidableEq, Repr

/-- `ExtractionResult` from src/types.rs. -/
structure ExtractionResult where
  nodes : List Node := []
  edges : List Edge := []
  unresolved_refs : List UnresolvedReference := []
  errors : List ExtractionError := []
deriving DecidableEq, Repr

-- ===========================================================================
-- src/db/schema.rs + src/db/mod.rs: the store, rows holding the string
-- encodings the SQLite schema stores
-- ===========================================================================

/-- Row of the `files` table (schema.rs): the `language` column stores the
string written by `insert_or_update_file`, i.e. `file.language.as_str()`. -/
structure FileRow where
  path : Str
  content_hash : Str
  language : Str
  size : Nat
  modified_at : Int
  indexed_at : Int
  node_count : Nat
deriving DecidableEq, Repr

/-- Row of the `nodes` table (schema.rs): `kind`, `visibility` and
`language` are stored as their `as_str` encodings. -/
structure NodeRow where
  id : Int
  kind : Str
  name : Str
  qualified_name : Option Str
  file_path : Str
  start_line : Nat
  end_line : Nat
  start_column : Nat
  end_column : Nat
  signature : Option Str
  visibility : Str
  docstring : Option Str
  is_async : Bool
  is_static : Bool
  is_exported : Bool
  language : Str
deriving DecidableEq, Repr

/-- Row of the `edges` table (schema.rs). -/
structure EdgeRow where
  id : Int
  source_id : Int
  target_id : Int
  kind : Str
  file_path : Option Str
  line : Option Nat
  column : Option Nat
deriving DecidableEq, Repr

/-- Row of the `unresolved_refs` table (schema.rs). -/
structure UrefRow where
  id : Int
  source_node_id : Int
  reference_name : Str
  kind : Str
  file_path : Str
  line : Nat
  column : Nat
deriving DecidableEq, Repr

/-- The store (`Database` of src/db/mod.rs): the four tables in rowid
order together with the next AUTOINCREMENT ids. -/
structure DB where
  files : List FileRow
  nodes : List NodeRow
  edges : List EdgeRow
  urefs : List UrefRow
  next_node_id : Int := 1
  next_edge_id : Int := 1
  next_uref_id : Int := 1
deriving DecidableEq, Repr

/-- The freshly initialised store. -/
def DB.empty : DB := { files := [], nodes := [], edges := [], urefs := [] }

/-- `Database::insert_or_update_file` from src/db/mod.rs: upsert keyed on
`path`, `ON CONFLICT(path) DO UPDATE` replacing every other column;
the `language` column receives `file.language.as_str()`. -/
def insert_or_update_file (db : DB) (file : FileRecord) : DB :=
  let row : FileRow :=
    { path := file.path, content_hash := file.content_hash,
      language := file.language.as_str, size := file.size,
      modified_at := file.modified_at, indexed_at := file.indexed_at,
      node_count := file.node_count }
  if db.files.any (fun r => r.path = file.path) then
    { db with files := db.files.map (fun r => if r.path = file.path then row else r) }
  else
    { db with files := db.files ++ [row] }

/-- `Database::get_file` from src/db/mod.rs: keyed lookup; note the
`language` column is decoded with `Language::from_extension`, exactly as
the source does. -/
def get_file (db : DB) (path : Str) : Option FileRecord :=
  (db.files.find? (fun r => r.path = path)).map (fun r =>
    { path := r.path, content_hash := r.content_hash,
      language := Language.from_extension r.language, size := r.size,
      modified_at := r.modified_at, indexed_at := r.indexed_at,
      node_count := r.node_count })

/-- `Database::needs_reindex` from src/db/mod.rs. -/
def needs_reindex (db : DB) (path : Str) (content_hash : Str) : Bool :=
  match get_file db path with
  | some file => file.content_hash ≠ content_hash
  | none => true

-- ===========================================================================
-- Node operations (src/db/mod.rs)
-- ===========================================================================

/-- Encoding of a `Node` into a `nodes` row by `Database::insert_node`:
`kind`, `visibility`, `language` are stored via `as_str`, the id comes from
SQLite AUTOINCREMENT. -/
def node_to_row (id : Int) (n : Node) : NodeRow :=
  { id := id, kind := n.kind.as_str, name := n.name,
    qualified_name := n.qualified_name, file_path := n.file_path,
    start_line := n.start_line, end_line := n.end_line,
    start_column := n.start_column, end_column := n.end_column,
    signature := n.signature, visibility := n.visibility.as_str,
    docstring := n.docstring, is_async := n.is_async,
    is_static := n.is_static, is_exported := n.is_exported,
    language := n.language.as_str }

/-- `Database::insert_node` from src/db/mod.rs, returning
`last_insert_rowid`. -/
def insert_node (db : DB) (n : Node) : DB × Int :=
  ({ db with nodes := db.nodes ++ [node_to_row db.next_node_id n],
             next_node_id := db.next_node_id + 1 },
   db.next_node_id)

/-- `Database::row_to_node` from src/db/mod.rs: decodes the stored strings,
with the source's fallback defaults. -/
def row_to_node (r : NodeRow) : Node :=
  { id := r.id, kind := (NodeKind.parse r.kind).getD NodeKind.Function,
    name := r.name, qualified_name := r.qualified_name,
    file_path := r.file_path, start_line := r.start_line,
    end_line := r.end_line, start_column := r.start_column,
    end_column := r.end_column, signature := r.signature,
    visibility := Visibility.parse r.visibility, docstring := r.docstring,
    is_async := r.is_async, is_static := r.is_static,
    is_exported := r.is_exported, language := Language.parse r.language }

/-- `Database::get_node` from src/db/mod.rs. -/
def get_node (db : DB) (id : Int) : Option Node :=
  (db.nodes.find? (fun r => r.id = id)).map row_to_node

/-- `Database::find_node_by_name` from src/db/mod.rs:
`SELECT * FROM nodes WHERE name = ?1 LIMIT 1`, the first matching row in
rowid order. -/
def find_node_by_name (db : DB) (name : Str) : Option Node :=
  (db.nodes.find? (fun r => r.name = name)).map row_to_node

/-- SQLite `LIKE` matching (default, no ESCAPE): `'%'` matches any
sequence, `'_'` any single character, anything else itself.  Both sides
reach this matcher already lowercased by the query of `search_nodes`. -/
def like_match : Str → Str → Bool
  | [], t => t.isEmpty
  | p :: ps, t =>
    if p = '%' then t.tails.any (fun suf => like_match ps suf)
    else
      match t with
      | [] => false
      | c :: ts => (p == '_' || p == c) && like_match ps ts

/-- The `ORDER BY LENGTH(name), name` key of `search_nodes` (SQLite
`LENGTH` counts characters; `name` compares bytewise, which on UTF-8 is
codepoint order). -/
def search_key_le (a b : NodeRow) : Prop :=
  a.name.length < b.name.length ∨
    (a.name.length = b.name.length ∧ a.name ≤ b.name)

instance : DecidableRel search_key_le := by
  intro a b; unfold search_key_le; infer_instance

instance : IsTotal NodeRow search_key_le := by
  constructor; intro a b
  rcases Nat.lt_trichotomy a.name.length b.name.length with h | h | h
  · exact Or.inl (Or.inl h)
  · rcases le_total a.name b.name with h' | h'
    · exact Or.inl (Or.inr ⟨h, h'⟩)
    · exact Or.inr (Or.inr ⟨h.symm, h'⟩)
  · exact Or.inr (Or.inl h)

instance : IsTrans NodeRow search_key_le := by
  constructor; intro a b c hab hbc
  rcases hab with h | ⟨h1, h2⟩
  · rcases hbc with h' | ⟨h1', _⟩
    · exact Or.inl (h.trans h')
    · exact Or.inl (h1' ▸ h)
  · rcases hbc with h' | ⟨h1', h2'⟩
    · exact Or.inl (h1 ▸ h')
    · exact Or.inr ⟨h1.trans h1', h2.trans h2'⟩

/-- `Database::search_nodes` from src/db/mod.rs:
`WHERE LOWER(name) LIKE '<lower(query)>%' [AND kind = ?] ORDER BY
LENGTH(name), name LIMIT ?`.  The sort is modelled by `insertionSort`
(SQLite leaves the relative order of equal keys unspecified). -/
def search_nodes (db : DB) (query : Str) (kind : Option NodeKind) (limit : Nat) :
    List Node :=
  (((db.nodes.filter (fun r =>
    like_match (lowerStr query ++ ['%']) (lowerStr r.name) &&
      (match kind with
       | some k => decide (r.kind = k.as_str)
       | none => true))).insertionSort search_key_le).take limit).map row_to_node

/-- `Database::get_nodes_by_file` from src/db/mod.rs. -/
def get_nodes_by_file (db : DB) (file_path : Str) : List Node :=
  ((db.nodes.filter (fun r => r.file_path = file_path)).insertionSort
      (fun a b => a.start_line ≤ b.start_line)).map row_to_node

-- ===========================================================================
-- Edge operations (src/db/mod.rs)
-- ===========================================================================

/-- Encoding of an `Edge` into an `edges` row by `Database::insert_edge`. -/
def edge_to_row (id : Int) (e : Edge) : EdgeRow :=
  { id := id, source_id := e.source_id, target_id := e.target_id,
    kind := e.kind.as_str, file_path := e.file_path, line := e.line,
    column := e.column }

/-- `Database::insert_edge` from src/db/mod.rs. -/
def insert_edge (db : DB) (e : Edge) : DB × Int :=
  ({ db with edges := db.edges ++ [edge_to_row db.next_edge_id e],
             next_edge_id := db.next_edge_id + 1 },
   db.next_edge_id)

/-- `Database::row_to_edge` from src/db/mod.rs. -/
def row_to_edge (r : EdgeRow) : Edge :=
  { id := r.id, source_id := r.source_id, target_id := r.target_id,
    kind := (EdgeKind.parse r.kind).getD EdgeKind.References,
    file_path := r.file_path, line := r.line, column := r.column }

/-- `Database::get_callers` from src/db/mod.rs: the join
`nodes n INNER JOIN edges e ON e.source_id = n.id WHERE e.target_id = ?
AND e.kind = 'calls' LIMIT ?`, enumerating edge rows in rowid order. -/
def get_callers (db : DB) (node_id : Int) (limit : Nat) : List Node :=
  (((db.edges.filter (fun e =>
        e.target_id = node_id && e.kind = ("calls".toList))).filterMap
      (fun e => (db.nodes.find? (fun n => n.id = e.source_id)).map row_to_node)).take
    limit)

/-- `Database::get_callees` from src/db/mod.rs. -/
def get_callees (db : DB) (node_id : Int) (limit : Nat) : List Node :=
  (((db.edges.filter (fun e =>
        e.source_id = node_id && e.kind = ("calls".toList))).filterMap
      (fun e => (db.nodes.find? (fun n => n.id = e.target_id)).map row_to_node)).take
    limit)

/-- `Database::get_outgoing_edges` from src/db/mod.rs. -/
def get_outgoing_edges (db : DB) (node_id : Int) : List Edge :=
  (db.edges.filter (fun e => e.source_id = node_id)).map row_to_edge

/-- `Database::get_incoming_edges` from src/db/mod.rs. -/
def get_incoming_edges (db : DB) (node_id : Int) : List Edge :=
  (db.edges.filter (fun e => e.target_id = node_id)).map row_to_edge

-- ===========================================================================
-- Unresolved references (src/db/mod.rs)
-- ===========================================================================

/-- `Database::insert_unresolved_ref` from src/db/mod.rs. -/
def insert_unresolved_ref (db : DB) (u : UnresolvedReference) : DB :=
  { db with
    urefs := db.urefs ++
      [{ id := db.next_uref_id, source_node_id := u.source_node_id,
         reference_name := u.reference_name, kind := u.kind.as_str,
         file_path := u.file_path, line := u.line, column := u.column }],
    next_uref_id := db.next_uref_id + 1 }

/-- `Database::get_unresolved_refs` from src/db/mod.rs, with the source's
decode default of `Calls`. -/
def get_unresolved_refs (db : DB) : List UnresolvedReference :=
  db.urefs.map (fun r =>
    { source_node_id := r.source_node_id, reference_name := r.reference_name,
      kind := (EdgeKind.parse r.kind).getD EdgeKind.Calls,
      file_path := r.file_path, line := r.line, column := r.column })

/-- One iteration of the loop in `Database::resolve_references`. -/
def resolve_step (st : DB × Nat) (uref : UnresolvedReference) : DB × Nat :=
  match find_node_by_name st.1 uref.reference_name with
  | some target =>
      let edge : Edge :=
        { id := 0, source_id := uref.source_node_id, target_id := target.id,
          kind := uref.kind, file_path := some uref.file_path,
          line := some uref.line, column := some uref.column }
      ((insert_edge st.1 edge).1, st.2 + 1)
  | none => st

/-- `Database::resolve_references` from src/db/mod.rs: snapshot the
unresolved refs, insert one edge per ref whose name resolves, then
`DELETE FROM unresolved_refs`. -/
def resolve_references (db : DB) : DB × Nat :=
  let st := (get_unresolved_refs db).foldl resolve_step (db, 0)
  ({ st.1 with urefs := [] }, st.2)

-- ===========================================================================
-- delete_file (src/db/mod.rs) and its SQLite foreign-key semantics
-- ===========================================================================

/-- Ids of the nodes of one file: `SELECT id FROM nodes WHERE file_path = ?`. -/
def file_node_ids (db : DB) (path : Str) : List Int :=
  (db.nodes.filter (fun n => n.file_path = path)).map (fun n => n.id)

/-- Statement 1 of `Database::delete_file`: `DELETE FROM edges WHERE
source_id IN (SELECT id FROM nodes WHERE file_path = ?1)`. -/
def delete_edges_by_source_file (db : DB) (path : Str) : DB :=
  let ids := file_node_ids db path
  { db with edges := db.edges.filter (fun e => ¬ ids.contains e.source_id) }

/-- Statement 2 of `Database::delete_file`: the same for `target_id`. -/
def delete_edges_by_target_file (db : DB) (path : Str) : DB :=
  let ids := file_node_ids db path
  { db with edges := db.edges.filter (fun e => ¬ ids.contains e.target_id) }

/-- Statement 3 of `Database::delete_file`:
`DELETE FROM nodes WHERE file_path = ?1`. -/
def delete_nodes_by_file (db : DB) (path : Str) : DB :=
  { db with nodes := db.nodes.filter (fun n => ¬ n.file_path = path) }

/-- Statement 4 of `Database::delete_file`:
`DELETE FROM unresolved_refs WHERE file_path = ?1`. -/
def delete_urefs_by_file (db : DB) (path : Str) : DB :=
  { db with urefs := db.urefs.filter (fun u => ¬ u.file_path = path) }

/-- Statement 5 of `Database::delete_file`:
`DELETE FROM files WHERE path = ?1`. -/
def delete_file_row (db : DB) (path : Str) : DB :=
  { db with files := db.files.filter (fun f => ¬ f.path = path) }

/-- `Database::delete_file` from src/db/mod.rs, statements in source
order: edges by source, edges by target, nodes, unresolved refs, file
record. -/
def delete_file (db : DB) (path : Str) : DB :=
  delete_file_row
    (delete_urefs_by_file
      (delete_nodes_by_file
        (delete_edges_by_target_file
          (delete_edges_by_source_file db path) path) path) path) path

/-- Statement 3 under `PRAGMA foreign_keys = ON` (enabled in
`Database::open`/`in_memory`): deleting a node row fails when an edge or
an unresolved ref still references it. -/
def delete_nodes_checked (db : DB) (path : Str) : Except Str DB :=
  if (delete_nodes_by_file db path).edges.any (fun e =>
        (file_node_ids db path).contains e.source_id ||
          (file_node_ids db path).contains e.target_id)
      || (delete_nodes_by_file db path).urefs.any (fun u =>
        (file_node_ids db path).contains u.source_node_id) then
    Except.error (("FOREIGN KEY constraint failed").toList)
  else
    Except.ok (delete_nodes_by_file db path)

/-- Statement 5 under `PRAGMA foreign_keys = ON`: deleting a file row
fails when a node row still references the path. -/
def delete_file_row_checked (db : DB) (path : Str) : Except Str DB :=
  if (delete_file_row db path).nodes.any (fun n => n.file_path = path) then
    Except.error (("FOREIGN KEY constraint failed").toList)
  else
    Except.ok (delete_file_row db path)

/-- `Database::delete_file` with SQLite's foreign-key enforcement made
explicit; the `?` propagation of a failing statement is the `match`.
Deleting edge or unresolved-ref rows (child tables) can never violate a
constraint, so only statements 3 and 5 carry checks. -/
def delete_file_checked (db : DB) (path : Str) : Except Str DB :=
  match delete_nodes_checked
      (delete_edges_by_target_file (delete_edges_by_source_file db path) path)
      path with
  | Except.error msg => Except.error msg
  | Except.ok db3 =>
      delete_file_row_checked (delete_urefs_by_file db3 path) path

/-- Modelled from the spec's words (claim C4): the same four deletions in
the order the claim states — nodes first, then edges with an endpoint in
the file, then unresolved refs, then the file record — under the same
foreign-key enforcement. -/
def delete_file_claimed_order (db : DB) (path : Str) : Except Str DB :=
  match delete_nodes_checked db path with
  | Except.error msg => Except.error msg
  | Except.ok db1 =>
      delete_file_row_checked
        (delete_urefs_by_file
          { db1 with edges := ((db1.edges.filter (fun e =>
              ¬ (file_node_ids db path).contains e.source_id)).filter (fun e =>
              ¬ (file_node_ids db path).contains e.target_id)) } path) path

-- ===========================================================================
-- Statistics and transactions (src/db/mod.rs)
-- ===========================================================================

/-- The counting queries of `Database::get_stats`. -/
def total_files (db : DB) : Nat := db.files.length

/-- `SELECT COUNT(*) FROM nodes` in `Database::get_stats`. -/
def total_nodes (db : DB) : Nat := db.nodes.length

/-- `SELECT COUNT(*) FROM edges` in `Database::get_stats`. -/
def total_edges (db : DB) : Nat := db.edges.length

-- ===========================================================================
-- Path extensions (Rust `Path::extension`, used by src/lib.rs and
-- src/extraction/mod.rs)
-- ===========================================================================

/-- Final path component (Rust `Path::file_name`, unix separators). -/
def file_name_of (path : Str) : Str := (path.splitOn '/').getLastD []

/-- Characters after the last `'.'`. -/
def after_last_dot (s : Str) : Str :=
  (s.reverse.takeWhile (fun c => c ≠ '.')).reverse

/-- Rust `path.extension().and_then(|e| e.to_str()).unwrap_or("")`: the
part of the file name after its last `'.'`; empty when there is no dot, or
when the only dot is the leading one of a dotfile. -/
def ext_of (path : Str) : Str :=
  match file_name_of path with
  | [] => []
  | _ :: rest => if rest.contains '.' then after_last_dot rest else []

-- ===========================================================================
-- src/extraction/mod.rs: the parts of the extractor the claims name
-- ===========================================================================

/-- `ExtractionContext::extract_signature` from src/extraction/mod.rs:
first line of the node's text, cut at the first `'{'`, trimmed; for
function/method additionally truncated to 200 bytes with a `"..."` suffix
(`format!("{}...", &sig[..200])`; bytes and characters agree on the ASCII
text in scope). -/
def extract_signature (kind : NodeKind) (text : Str) : Option Str :=
  match kind with
  | .Function | .Method =>
    let sig := rustTrim (beforeBrace (firstLine text))
    if 200 < sig.length then some (sig.take 200 ++ ("...".toList)) else some sig
  | .Class | .Struct | .Interface | .Trait =>
    some (rustTrim (beforeBrace (firstLine text)))
  | _ => none

/-- `Extractor::extract_file` from src/extraction/mod.rs, up to its
pre-walk guard: the Unknown-extension check runs before any grammar or
parser work, and everything after it (grammar lookup, parsing, the tree
walk) is abstracted by `rest`. -/
def extract_file (rest : Str → Str → ExtractionResult) (path content : Str) :
    ExtractionResult :=
  if Language.from_extension (ext_of path) = Language.Unknown then
    { nodes := [], edges := [], unresolved_refs := [],
      errors := [{ message := (("Unsupported file extension: ").toList ++ ext_of path),
                   file_path := path, line := none, column := none }] }
  else rest path content

-- ===========================================================================
-- src/graph/mod.rs: impact analysis
-- ===========================================================================

/-- `ImpactAnalysis` from src/graph/mod.rs. -/
structure ImpactAnalysis where
  root : Option Node
  direct_callers : List Node
  indirect_callers : List Node
  total_impact : Nat
deriving DecidableEq, Repr

/-- Loop state of `Graph::analyze_impact`: the visited set, the two
result vectors, and the FIFO work queue of (node id, depth) pairs. -/
structure BfsState where
  visited : Finset Int
  direct_callers : List Node
  indirect_callers : List Node
  queue : List (Int × Nat)
deriving DecidableEq

/-- Body of the `for caller in callers` loop of `Graph::analyze_impact`:
skip visited callers, record new ones as direct (depth 0) or indirect,
and push them on the queue. -/
def impact_visit (d : Nat) (st : BfsState) (caller : Node) : BfsState :=
  if caller.id ∈ st.visited then st
  else
    { visited := insert caller.id st.visited,
      direct_callers :=
        if d = 0 then st.direct_callers ++ [caller] else st.direct_callers,
      indirect_callers :=
        if d = 0 then st.indirect_callers else st.indirect_callers ++ [caller],
      queue := st.queue ++ [(caller.id, d + 1)] }

/-- The `while let Some(..) = queue.pop_front()` loop of
`Graph::analyze_impact`.  The Rust loop runs until the queue empties; here
it is driven by a fuel argument, and `analyze_impact_fuel_sufficient`
below proves the a-priori fuel `bfs_measure` always suffices, which is the
termination argument for the source loop. -/
def impact_bfs (db : DB) (depth : Nat) : Nat → BfsState → BfsState
  | 0, st => st
  | fuel + 1, st =>
    match st.queue with
    | [] => st
    | (node_id, d) :: rest =>
      if depth ≤ d then
        impact_bfs db depth fuel { st with queue := rest }
      else
        impact_bfs db depth fuel
          ((get_callers db node_id 100).foldl (impact_visit d)
            { st with queue := rest })

/-- Every node id present in the store. -/
def cand_ids (db : DB) : Finset Int := (db.nodes.map (fun n => n.id)).toFinset

/-- Decreasing measure of the BFS loop: unvisited store ids plus queue
length.  Each iteration pops one queue entry and pushes only ids it moves
from unvisited to visited. -/
def bfs_measure (db : DB) (st : BfsState) : Nat :=
  (cand_ids db \ st.visited).card + st.queue.length

/-- `Graph::analyze_impact` from src/graph/mod.rs. -/
def analyze_impact (db : DB) (symbol_name : Str) (depth : Nat) : ImpactAnalysis :=
  match find_node_by_name db symbol_name with
  | none =>
    { root := none, direct_callers := [], indirect_callers := [],
      total_impact := 0 }
  | some root =>
    let st0 : BfsState :=
      { visited := {root.id}, direct_callers := [], indirect_callers := [],
        queue := [(root.id, 0)] }
    let st := impact_bfs db depth (bfs_measure db st0) st0
    { root := some root, direct_callers := st.direct_callers,
      indirect_callers := st.indirect_callers,
      total_impact := st.direct_callers.length + st.indirect_callers.length }

-- ===========================================================================
-- src/graph/mod.rs: find_related
-- ===========================================================================

/-- Exact value of the `f64` neighbour scores `1.0 / (idx + 1.0)` and
`0.8 / (idx + 1.0)` and of their sums, kept as an unreduced nonnegative
fraction.  The properties proved about `find_related` are independent of
the order the scores induce, so exact arithmetic stands in for `f64`. -/
structure Score where
  num : Nat
  den : Nat
deriving DecidableEq, Repr

/-- Sum of two scores (`*s += score`). -/
def Score.add (a b : Score) : Score :=
  { num := a.num * b.den + b.num * a.den, den := a.den * b.den }

/-- Comparison of two scores (`partial_cmp` on positive fractions). -/
def Score.le (a b : Score) : Prop := a.num * b.den ≤ b.num * a.den

instance : DecidableRel Score.le := by
  intro a b; unfold Score.le; infer_instance

/-- `related.entry(id).and_modify(|(_, s)| *s += score).or_insert((node,
score))` on the model of the `HashMap` as an association list in
first-insertion order (the map's own iteration order is arbitrary). -/
def related_upsert (m : List (Int × Node × Score)) (id : Int) (n : Node)
    (s : Score) : List (Int × Node × Score) :=
  if m.any (fun e => e.1 = id) then
    m.map (fun e => if e.1 = id then (e.1, e.2.1, Score.add e.2.2 s) else e)
  else m ++ [(id, n, s)]

/-- `Graph::find_related` from src/graph/mod.rs: seed the visited set with
every entry-point id; per entry point score its callees (`1/(idx+1)`) then
its callers (`0.8/(idx+1)`), both capped at 10, skipping visited ids and
summing scores across entry points; sort by score descending and truncate
to `max_nodes`. -/
def find_related (db : DB) (entry_points : List Node) (max_nodes : Nat) :
    List Node :=
  let visited := entry_points.map (fun e => e.id)
  let rel := entry_points.foldl (fun m entry =>
    let m1 := ((get_callees db entry.id 10).enum).foldl
      (fun m p =>
        if visited.contains p.2.id then m
        else related_upsert m p.2.id p.2 { num := 1, den := p.1 + 1 }) m
    ((get_callers db entry.id 10).enum).foldl
      (fun m p =>
        if visited.contains p.2.id then m
        else related_upsert m p.2.id p.2 { num := 4, den := 5 * (p.1 + 1) }) m1)
    []
  let sorted := rel.insertionSort (fun a b => Score.le b.2.2 a.2.2)
  (sorted.take max_nodes).map (fun e => e.2.1)

-- ===========================================================================
-- src/context/mod.rs: the context builder
-- ===========================================================================

/-- `ContextOptions` from src/context/mod.rs, with its defaults. -/
structure ContextOptions where
  max_nodes : Nat := 20
  include_code : Bool := true
  max_code_blocks : Nat := 5
  max_block_size : Nat := 1500
  depth : Nat := 1
deriving DecidableEq, Repr

/-- `CodeBlock` from src/types.rs. -/
structure CodeBlock where
  node : Node
  code : Str
  context_before : Option Str
  context_after : Option Str
deriving DecidableEq, Repr

/-- `TaskContext` from src/types.rs. -/
structure TaskContext where
  entry_points : List Node
  related_nodes : List Node
  edges : List Edge
  code_blocks : List CodeBlock
deriving DecidableEq, Repr

/-- The stop-word array of `ContextBuilder::extract_keywords`. -/
def stop_words : List Str :=
  [("the").toList, ("a").toList, ("an").toList, ("is").toList,
   ("are").toList, ("was").toList, ("were").toList, ("be").toList,
   ("been").toList, ("being").toList, ("have").toList, ("has").toList,
   ("had").toList, ("do").toList, ("does").toList, ("did").toList,
   ("will").toList, ("would").toList, ("could").toList, ("should").toList,
   ("may").toList, ("might").toList, ("must").toList, ("shall").toList,
   ("can").toList, ("need").toList, ("to").toList, ("of").toList,
   ("in").toList, ("for").toList, ("on").toList, ("with").toList,
   ("at").toList, ("by").toList, ("from").toList, ("as").toList,
   ("into").toList, ("through").toList, ("during").toList,
   ("before").toList, ("after").toList, ("above").toList,
   ("below").toList, ("between").toList, ("under").toList,
   ("again").toList, ("further").toList, ("then").toList,
   ("once").toList, ("here").toList, ("there").toList, ("when").toList,
   ("where").toList, ("why").toList, ("how").toList, ("all").toList,
   ("each").toList, ("few").toList, ("more").toList, ("most").toList,
   ("other").toList, ("some").toList, ("such").toList, ("no").toList,
   ("nor").toList, ("not").toList, ("only").toList, ("own").toList,
   ("same").toList, ("so").toList, ("than").toList, ("too").toList,
   ("very").toList, ("just").toList, ("and").toList, ("but").toList,
   ("if").toList, ("or").toList, ("because").toList, ("until").toList,
   ("while").toList, ("this").toList, ("that").toList, ("these").toList,
   ("those").toList, ("what").toList, ("which").toList, ("who").toList,
   ("whom").toList, ("find").toList, ("get").toList, ("look").toList,
   ("see").toList, ("use").toList, ("make").toList, ("want").toList,
   ("fix").toList, ("add").toList, ("update").toList, ("change").toList,
   ("modify").toList, ("implement").toList, ("create").toList,
   ("delete").toList, ("remove").toList]

/-- Rust `str::split(pred)`: pieces between separator characters, empty
pieces included. -/
def split_on_pred (p : Char → Bool) : Str → List Str
  | [] => [[]]
  | c :: rest =>
    match split_on_pred p rest with
    | [] => []
    | h :: t => if p c then [] :: h :: t else (c :: h) :: t

/-- `ContextBuilder::extract_keywords` from src/context/mod.rs: split on
every character that is neither alphanumeric nor `'_'` (ASCII fragment of
Rust `char::is_alphanumeric`), keep words longer than 2 characters that
are not stop words. -/
def extract_keywords (task : Str) : List Str :=
  (split_on_pred (fun c => ¬ (c.isAlphanum ∨ c = '_')) task).filter
    (fun word => 2 < word.length && ¬ stop_words.contains (lowerStr word))

/-- The `sort_by_key` priority of `ContextBuilder::find_entry_points`. -/
def kind_priority : NodeKind → Nat
  | .Function | .Method => 0
  | .Class | .Struct => 1
  | .Interface | .Trait => 2
  | _ => 3

/-- The inner push of `ContextBuilder::find_entry_points`: append a search
hit unless the limit is reached or its id is already present. -/
def entry_push (limit : Nat) (acc : List Node) (n : Node) : List Node :=
  if limit ≤ acc.length then acc
  else if acc.any (fun m => m.id = n.id) then acc
  else acc ++ [n]

/-- `ContextBuilder::find_entry_points` from src/context/mod.rs: per
keyword, `search_nodes(keyword, None, 5)`, stably sorted by kind priority,
appended de-duplicated by id until `limit` entries are collected. -/
def find_entry_points (db : DB) (task : Str) (limit : Nat) : List Node :=
  (extract_keywords task).foldl (fun acc kw =>
    if limit ≤ acc.length then acc
    else
      ((search_nodes db kw none 5).insertionSort
        (fun a b => kind_priority a.kind ≤ kind_priority b.kind)).foldl
        (entry_push limit) acc) []

instance : DecidableRel (fun (a b : Node) => kind_priority a.kind ≤ kind_priority b.kind) := by
  intro a b; infer_instance

/-- Rust `Path::join(project_root, file_path)` for the relative paths in
scope. -/
def join_path (root rel : Str) : Str := root ++ ("/").toList ++ rel

/-- The per-node body of `ContextBuilder::build_code_blocks`: skip file
nodes, skip unreadable files (`fs::read_to_string` is abstracted by
`reader`), slice lines `[start_line-1, min(end_line, line_count))`,
truncate the joined code to `max_block_size` bytes appending
`"\n// ... truncated"`, and collect up to 3 lines of context on each
side. -/
def code_block_for (reader : Str → Option Str) (project_root : Str)
    (opts : ContextOptions) (node : Node) : Option CodeBlock :=
  if node.kind = NodeKind.File then none
  else
    match reader (join_path project_root node.file_path) with
    | none => none
    | some content =>
      let lines := rustLines content
      let start := node.start_line - 1
      let stop := min node.end_line lines.length
      if lines.length ≤ start then none
      else
        let code0 := List.intercalate (("\n").toList)
          ((lines.drop start).take (stop - start))
        let code :=
          if opts.max_block_size < code0.length then
            code0.take opts.max_block_size ++ ("\n// ... truncated").toList
          else code0
        let context_before :=
          if 0 < start then
            some (List.intercalate (("\n").toList)
              ((lines.drop (start - 3)).take (start - (start - 3))))
          else none
        let context_after :=
          if stop < lines.length then
            some (List.intercalate (("\n").toList)
              ((lines.drop stop).take (min (stop + 3) lines.length - stop)))
          else none
        some { node := node, code := code, context_before := context_before,
               context_after := context_after }

/-- `ContextBuilder::build_code_blocks` from src/context/mod.rs: the loop
over the first `max_code_blocks` nodes, each `continue` dropping the
node. -/
def build_code_blocks (reader : Str → Option Str) (project_root : Str)
    (nodes : List Node) (opts : ContextOptions) : List CodeBlock :=
  (nodes.take opts.max_code_blocks).filterMap
    (code_block_for reader project_root opts)

/-- `ContextBuilder::build_context` from src/context/mod.rs. -/
def build_context (reader : Str → Option Str) (db : DB) (project_root : Str)
    (task : Str) (opts : ContextOptions) : TaskContext :=
  let entry_points := find_entry_points db task (opts.max_nodes / 2)
  let related_nodes :=
    if entry_points.isEmpty then []
    else find_related db entry_points (opts.max_nodes / 2)
  let all_node_ids := (entry_points ++ related_nodes).map (fun n => n.id)
  let edges := all_node_ids.foldl (fun acc id =>
    acc ++ (get_outgoing_edges db id).filter
      (fun e => all_node_ids.contains e.target_id)) []
  let code_blocks :=
    if opts.include_code then
      build_code_blocks reader project_root entry_points opts
    else []
  { entry_points := entry_points, related_nodes := related_nodes,
    edges := edges, code_blocks := code_blocks }

-- ===========================================================================
-- src/lib.rs: the indexer
-- ===========================================================================

/-- `IndexConfig` from src/lib.rs. -/
structure IndexConfig where
  root : Str
  extensions : List Str
  exclude_dirs : List Str
  respect_gitignore : Bool
deriving DecidableEq, Repr

/-- One file yielded by the ignore-aware walk of `index_codebase`: its
path and its contents (`fs::read_to_string`; I/O is outside the model) and
metadata timestamp. -/
structure Entry where
  path : Str
  content : Str
  modified_at : Int
deriving DecidableEq, Repr

/-- `IndexStats` from src/lib.rs. -/
structure IndexStats where
  files : Nat := 0
  nodes : Nat := 0
  edges : Nat := 0
  skipped : Nat := 0
  errors : Nat := 0
  resolved_refs : Nat := 0
deriving DecidableEq, Repr

/-- Rust `path.strip_prefix(&root)` on unix path strings. -/
def strip_root (root path : Str) : Str :=
  if (root ++ ("/").toList).isPrefixOf path then path.drop (root.length + 1)
  else path

/-- The excluded-directory test of `index_codebase`: the path contains
`/<dir>/` or `\<dir>\`. -/
def excluded_dir (cfg : IndexConfig) (path : Str) : Bool :=
  cfg.exclude_dirs.any (fun d =>
    strContains path (("/").toList ++ d ++ ("/").toList) ||
    strContains path (("\\").toList ++ d ++ ("\\").toList))

/-- The three per-file filters `index_codebase` applies before reading a
file: extension filter, supported-language check, excluded directories. -/
def entry_eligible (cfg : IndexConfig) (e : Entry) : Bool :=
  let ext := ext_of e.path
  (cfg.extensions.isEmpty || cfg.extensions.contains ext) &&
    ¬ (Language.from_extension ext = Language.Unknown) &&
    ¬ excluded_dir cfg e.path

/-- Lookup in the old-id → new-id `HashMap` of `index_codebase` (built by
consing, so the first hit is the most recent insertion). -/
def id_lookup (m : List (Int × Int)) (k : Int) : Option Int :=
  (m.find? (fun p => p.1 = k)).map (fun p => p.2)

/-- The node-insertion loop body of `index_codebase` (src/lib.rs): insert
the extracted node, record `old id → assigned id` in the map, count it. -/
def index_node_step (acc : DB × List (Int × Int) × Nat) (n : Node) :
    DB × List (Int × Int) × Nat :=
  let r := insert_node acc.1 n
  (r.1, (n.id, r.2) :: acc.2.1, acc.2.2 + 1)

/-- The edge-insertion loop body of `index_codebase` (src/lib.rs): insert
the edge with both endpoints remapped, skipping it when either endpoint is
not in the id map. -/
def index_edge_step (id_map : List (Int × Int)) (acc : DB × Nat)
    (edge : Edge) : DB × Nat :=
  match id_lookup id_map edge.source_id, id_lookup id_map edge.target_id with
  | some ns, some nt =>
    ((insert_edge acc.1
      { edge with source_id := ns, target_id := nt }).1, acc.2 + 1)
  | _, _ => acc

/-- The unresolved-reference staging loop body of `index_codebase`
(src/lib.rs): stage the reference with its source id remapped, skipping it
when the source is not in the id map. -/
def index_uref_step (id_map : List (Int × Int)) (acc : DB)
    (uref : UnresolvedReference) : DB :=
  match id_lookup id_map uref.source_node_id with
  | some ns => insert_unresolved_ref acc { uref with source_node_id := ns }
  | none => acc

/-- The per-file body of the walk loop in `index_codebase` (src/lib.rs):
filters, content hash, change gate, delete of the file's prior slice,
extraction, file record first, nodes with id remapping, edges and
unresolved refs whose endpoints are in the map, final node-count update,
statistics. -/
def index_step (cfg : IndexConfig) (hash : Str → Str)
    (extract : Str → Str → ExtractionResult) (now : Int)
    (st : DB × IndexStats) (e : Entry) : DB × IndexStats :=
  if ¬ entry_eligible cfg e then st
  else
    let content_hash := hash e.content
    let rel_path := strip_root cfg.root e.path
    if ¬ needs_reindex st.1 rel_path content_hash then
      (st.1, { st.2 with skipped := st.2.skipped + 1 })
    else
      let db := delete_file st.1 rel_path
      let result := extract rel_path e.content
      let language := Language.from_extension (ext_of e.path)
      let rec0 : FileRecord :=
        { path := rel_path, content_hash := content_hash, language := language,
          size := e.content.length, modified_at := e.modified_at,
          indexed_at := now, node_count := result.nodes.length }
      let db := insert_or_update_file db rec0
      let ins := result.nodes.foldl index_node_step (db, [], 0)
      let db := ins.1
      let id_map := ins.2.1
      let node_count := ins.2.2
      let edb := result.edges.foldl (index_edge_step id_map) (db, 0)
      let db := edb.1
      let db := result.unresolved_refs.foldl (index_uref_step id_map) db
      let db := insert_or_update_file db { rec0 with node_count := node_count }
      let s := st.2
      (db,
       { s with
         files := s.files + 1
         nodes := s.nodes + node_count
         edges := s.edges + edb.2
         errors := s.errors + result.errors.length })

/-- `index_codebase` from src/lib.rs over the walked entries, with the
content hasher and the extractor abstracted; the walk loop, then the
resolve pass (the whole pass is one committed transaction). -/
def index_codebase (cfg : IndexConfig) (hash : Str → Str)
    (extract : Str → Str → ExtractionResult) (now : Int) (db : DB)
    (entries : List Entry) : DB × IndexStats :=
  let st := entries.foldl (index_step cfg hash extract now) (db, {})
  let r := resolve_references st.1
  (r.1, { st.2 with resolved_refs := r.2 })

-- ===========================================================================
-- Verification helpers and spec-modelled comparison definitions
-- ===========================================================================

/-- Stored content hash of one file row (the projection `needs_reindex`
compares). -/
def file_hash (db : DB) (p : Str) : Option Str :=
  (db.files.find? (fun r => r.path = p)).map (fun r => r.content_hash)

/-- An edge row without its AUTOINCREMENT id, for statements that do not
depend on id assignment. -/
def edge_data (r : EdgeRow) : Int × Int × Str × Option Str × Option Nat × Option Nat :=
  (r.source_id, r.target_id, r.kind, r.file_path, r.line, r.column)

/-- The fifteen extension families `Language::from_extension` recognises
(the ten of the spec plus cs, php, rb, swift, kt/kts). -/
def supported_extensions : List Str :=
  [("rs").toList, ("ts").toList, ("tsx").toList, ("js").toList,
   ("mjs").toList, ("cjs").toList, ("jsx").toList, ("py").toList,
   ("pyi").toList, ("go").toList, ("java").toList, ("c").toList,
   ("h").toList, ("cpp").toList, ("cc").toList, ("cxx").toList,
   ("hpp").toList, ("hxx").toList, ("cs").toList, ("php").toList,
   ("rb").toList, ("swift").toList, ("kt").toList, ("kts").toList]

/-- Modelled from the spec's words as amended by claim C8: the slice of
the declaration up to the first `'{'` or newline, surrounding whitespace
trimmed; for function/method truncated to 200 characters with a `"..."`
(three ASCII dots) suffix when longer; the same untruncated header for
class/struct/interface/trait; no signature otherwise. -/
def signature_spec (kind : NodeKind) (text : Str) : Option Str :=
  let sliced := rustTrim (text.takeWhile (fun c => ¬ (c = '\n' ∨ c = '\x7b')))
  match kind with
  | .Function | .Method =>
    if 200 < sliced.length then some (sliced.take 200 ++ ("...").toList)
    else some sliced
  | .Class | .Struct | .Interface | .Trait => some sliced
  | _ => none

-- ===========================================================================
-- Concrete fixtures for witnesses and counterexamples
-- ===========================================================================

/-- The path used by the fixtures. -/
def test_rs : Str := ("test.rs").toList

/-- A file record fixture. -/
def fx_file : FileRecord :=
  { path := test_rs, content_hash := ("abc123").toList,
    language := Language.Rust, size := 1000, modified_at := 0,
    indexed_at := 0, node_count := 0 }

/-- A function-node fixture. -/
def mk_node (name : Str) : Node :=
  { id := 0, kind := NodeKind.Function, name := name, qualified_name := none,
    file_path := test_rs, start_line := 1, end_line := 10, start_column := 0,
    end_column := 1, signature := none, visibility := Visibility.Public,
    docstring := none, is_async := false, is_static := false,
    is_exported := true, language := Language.Rust }

/-- Fixture for C1: a file record whose language is Rust. -/
def c1_file : FileRecord := { fx_file with node_count := 5 }

/-- Fixture for C2: a store holding two nodes and one staged unresolved
reference whose kind is `imports` (staged through
`insert_unresolved_ref`). -/
def c2_db : DB :=
  let db := insert_or_update_file DB.empty fx_file
  let db := (insert_node db (mk_node (("caller_fn").toList))).1
  let db := (insert_node db (mk_node (("target_fn").toList))).1
  insert_unresolved_ref db
    { source_node_id := 1, reference_name := ("target_fn").toList,
      kind := EdgeKind.Imports, file_path := test_rs, line := 5, column := 10 }

/-- Fixture for C4 and others: one file, two nodes, one calls edge. -/
def c4_db : DB :=
  let db := insert_or_update_file DB.empty fx_file
  let db := (insert_node db (mk_node (("func1").toList))).1
  let db := (insert_node db (mk_node (("func2").toList))).1
  (insert_edge db
    { id := 0, source_id := 1, target_id := 2, kind := EdgeKind.Calls,
      file_path := some test_rs, line := some 5, column := some 10 }).1

/-- Fixture for C5: a single node named `ab`. -/
def c5_db : DB :=
  let db := insert_or_update_file DB.empty fx_file
  (insert_node db (mk_node (("ab").toList))).1

/-- Fixture for C7 and C10: `caller_fn` (id 1) calls `callee_fn` (id 2). -/
def c7_db : DB :=
  let db := insert_or_update_file DB.empty fx_file
  let db := (insert_node db (mk_node (("caller_fn").toList))).1
  let db := (insert_node db (mk_node (("callee_fn").toList))).1
  (insert_edge db
    { id := 0, source_id := 1, target_id := 2, kind := EdgeKind.Calls,
      file_path := some test_rs, line := none, column := none }).1

/-- Fixture for C8: a declaration text longer than 200 characters with a
leading space and whitespace before its brace. -/
def c8_text : Str := (" fn ").toList ++ List.replicate 300 'a' ++ (" {}").toList

/-- The value claim C8, read literally, assigns to `c8_text`: the slice up
to the first brace (untrimmed), cut to 200 characters, with a `'…'`
suffix. -/
def c8_claimed : Str :=
  ((" fn ").toList ++ List.replicate 300 'a' ++ [' ']).take 200 ++ ['…']

/-- Fixture for C3: a one-file walk. -/
def c3_cfg : IndexConfig :=
  { root := ("r").toList, extensions := [("rs").toList], exclude_dirs := [],
    respect_gitignore := true }

/-- The single walked entry of the C3 fixture. -/
def c3_entry : Entry :=
  { path := ("r/a.rs").toList, content := ("fn main() {}").toList,
    modified_at := 7 }

/-- A concrete extractor for the C3 fixture: one extracted node. -/
def c3_extract : Str → Str → ExtractionResult := fun p _ =>
  { nodes := [{ mk_node (("main").toList) with id := 1, file_path := p }],
    edges := [], unresolved_refs := [], errors := [] }

/-- A concrete content hasher for the C3 fixture. -/
def c3_hash : Str → Str := fun s => s

/-- Fixture for C9: one node named `helper`. -/
def c9_db : DB :=
  let db := insert_or_update_file DB.empty fx_file
  (insert_node db (mk_node (("helper").toList))).1

/-- Fixture for C9: the filesystem reader. -/
def c9_reader : Str → Option Str := fun p =>
  if p = ("root/test.rs").toList then some (("fn helper() {}\nmore\n").toList)
  else none

-- ===========================================================================
-- Theorems
-- ===========================================================================

theorem nodeKind_parse_as_str (k : NodeKind) : NodeKind.parse k.as_str = some k := by
  cases k <;> rfl

theorem edgeKind_parse_as_str (k : EdgeKind) : EdgeKind.parse k.as_str = some k := by
  cases k <;> rfl

theorem visibility_parse_as_str (v : Visibility) : Visibility.parse v.as_str = v := by
  cases v <;> rfl

theorem language_parse_as_str (l : Language) : Language.parse l.as_str = l := by
  cases l <;> rfl

/-- Decoding a freshly encoded node row restores the node, with the id the
store assigned. -/
theorem row_to_node_node_to_row (id : Int) (n : Node) :
    row_to_node (node_to_row id n) = { n with id := id } := by
  simp [row_to_node, node_to_row, nodeKind_parse_as_str, visibility_parse_as_str,
    language_parse_as_str]

/-- C1: the claim says `get_file` returns a record equal to the upserted
one in every field, the language surviving its string round-trip.  The
code stores `language.as_str()` (for Rust the string `rust`) but decodes
the column with `Language::from_extension`, which recognises only file
extensions — so a Rust record comes back with language `Unknown`.  This
contradicts the spec's stated round-trip invariant and the symmetric node
path (which decodes with `Language::parse`), so the claim is right and the
decode is a code bug; this theorem evaluates the code at the failing
input. -/
theorem c1_get_file_language_code_bug :
    get_file (insert_or_update_file DB.empty c1_file) c1_file.path =
      some { c1_file with language := Language.Unknown } ∧
    c1_file.language = Language.Rust ∧ Language.Unknown ≠ Language.Rust := by
  refine ⟨by decide, by decide, by decide⟩

/-- C6 counterexample: `.cs` is outside the ten families the claim lists,
yet it maps to `CSharp`, not `Unknown`. -/
theorem c6_counterexample_cs_extension :
    Language.from_extension (("cs").toList) = Language.CSharp ∧
    Language.CSharp ≠ Language.Unknown := by
  refine ⟨by decide, by decide⟩

theorem ext_match_unknown (e : Str) (hext : e ∉ supported_extensions) :
    Language.from_extension.ext_match e = Language.Unknown := by
  have mem : ∀ {a l : Str}, a = l → l ∈ supported_extensions →
      a ∈ supported_extensions := fun h hm => h ▸ hm
  unfold Language.from_extension.ext_match
  rw [if_neg (fun h => hext (mem h (by decide))),
      if_neg (fun h => hext (mem h (by decide))),
      if_neg (fun h => hext (mem h (by decide))),
      if_neg (by rintro (h | h | h) <;> exact hext (mem h (by decide))),
      if_neg (fun h => hext (mem h (by decide))),
      if_neg (by rintro (h | h) <;> exact hext (mem h (by decide))),
      if_neg (fun h => hext (mem h (by decide))),
      if_neg (fun h => hext (mem h (by decide))),
      if_neg (by rintro (h | h) <;> exact hext (mem h (by decide))),
      if_neg (by rintro (h | h | h | h | h) <;> exact hext (mem h (by decide))),
      if_neg (fun h => hext (mem h (by decide))),
      if_neg (fun h => hext (mem h (by decide))),
      if_neg (fun h => hext (mem h (by decide))),
      if_neg (fun h => hext (mem h (by decide))),
      if_neg (by rintro (h | h) <;> exact hext (mem h (by decide)))]

/-- C6 as amended: every extension whose lower-casing is outside the
fifteen supported families maps to `Unknown`, and extracting a file whose
extension maps to `Unknown` yields exactly one "Unsupported file
extension" error and no nodes, edges or unresolved references. -/
theorem c6_unsupported_extension_error (path content : Str)
    (rest : Str → Str → ExtractionResult)
    (hext : lowerStr (ext_of path) ∉ supported_extensions) :
    Language.from_extension (ext_of path) = Language.Unknown ∧
    extract_file rest path content =
      { nodes := [], edges := [], unresolved_refs := [],
        errors := [{ message := ("Unsupported file extension: ").toList ++ ext_of path,
                     file_path := path, line := none, column := none }] } := by
  have h1 : Language.from_extension (ext_of path) = Language.Unknown := by
    unfold Language.from_extension
    exact ext_match_unknown _ hext
  refine ⟨h1, ?_⟩
  unfold extract_file
  rw [h1]
  simp

/-- Witness for `c6_unsupported_extension_error` at the extension `xyz`. -/
theorem c6_unsupported_extension_error_witness :
    Language.from_extension (ext_of (("test.xyz").toList)) = Language.Unknown ∧
    extract_file (fun _ _ => {}) (("test.xyz").toList) (("body").toList) =
      { nodes := [], edges := [], unresolved_refs := [],
        errors := [{ message := ("Unsupported file extension: ").toList ++
                       ext_of (("test.xyz").toList),
                     file_path := ("test.xyz").toList, line := none,
                     column := none }] } :=
  c6_unsupported_extension_error (("test.xyz").toList) (("body").toList)
    (fun _ _ => {}) (by decide)

set_option maxRecDepth 8000 in
/-- C8 counterexample: on a long declaration with a leading space and a
space before its brace, the code trims before truncating and appends three
ASCII dots, so the recorded signature differs from the claim's literal
value (untrimmed slice, `'…'` suffix). -/
theorem c8_counterexample_suffix_and_trim :
    extract_signature NodeKind.Function c8_text =
      some ((("fn ").toList ++ List.replicate 197 'a') ++ ("...").toList) ∧
    extract_signature NodeKind.Function c8_text ≠ some c8_claimed := by
  refine ⟨by decide, by decide⟩

theorem getLast?_mem {l : Str} {c : Char} (h : l.getLast? = some c) : c ∈ l := by
  obtain ⟨hne, rfl⟩ := List.mem_getLast?_eq_getLast (Option.mem_def.mpr h)
  exact List.getLast_mem hne

theorem dropTrailingCr_eq_self {s : Str} (h : '\r' ∉ s) : dropTrailingCr s = s := by
  unfold dropTrailingCr
  split_ifs with hl
  · exact absurd (getLast?_mem hl) h
  · rfl

/-- C8 as amended: for function and method the recorded signature is the
slice of the declaration up to the first brace or newline with surrounding
whitespace trimmed, truncated to 200 characters with a `"..."` (three
ASCII dots) suffix when longer; for class/struct/interface/trait the same
untruncated header; no signature otherwise.  Carriage returns are outside
the single-line scope of the claim. -/
theorem c8_signature_spec (kind : NodeKind) (text : Str) (h : '\r' ∉ text) :
    extract_signature kind text = signature_spec kind text := by
  have hsub : '\r' ∉ text.takeWhile (fun c => c ≠ '\n') :=
    fun hm => h (List.Sublist.mem hm (List.takeWhile_sublist _))
  have key : beforeBrace (firstLine text) =
      text.takeWhile (fun c => ¬ (c = '\n' ∨ c = '\x7b')) := by
    unfold firstLine beforeBrace
    rw [dropTrailingCr_eq_self hsub, List.takeWhile_takeWhile]
    congr 1
    funext c
    by_cases h1 : c = '\n' <;> by_cases h2 : c = '\x7b' <;> simp [h1, h2]
  cases kind <;> simp [extract_signature, signature_spec, key]

/-- Witness for `c8_signature_spec` at a concrete declaration. -/
theorem c8_signature_spec_witness :
    extract_signature NodeKind.Function (("fn f() { body }").toList) =
      signature_spec NodeKind.Function (("fn f() { body }").toList) :=
  c8_signature_spec NodeKind.Function (("fn f() { body }").toList) (by decide)

/-- `find_node_by_name` reads only the `nodes` table. -/
theorem find_node_by_name_congr {db1 db2 : DB} (h : db1.nodes = db2.nodes)
    (name : Str) : find_node_by_name db1 name = find_node_by_name db2 name := by
  unfold find_node_by_name
  rw [h]

/-- Effect of the `resolve_references` loop on an arbitrary starting
accumulator whose node table matches `dbo`'s. -/
theorem resolve_step_foldl (dbo : DB) (refs : List UnresolvedReference) :
    ∀ (st : DB × Nat), st.1.nodes = dbo.nodes →
      (refs.foldl resolve_step st).1.nodes = st.1.nodes ∧
      (refs.foldl resolve_step st).1.files = st.1.files ∧
      (refs.foldl resolve_step st).1.urefs = st.1.urefs ∧
      (refs.foldl resolve_step st).1.edges.map edge_data =
        st.1.edges.map edge_data ++
          refs.filterMap (fun u =>
            (find_node_by_name dbo u.reference_name).map
              (fun t => (u.source_node_id, t.id, u.kind.as_str,
                         some u.file_path, some u.line, some u.column))) ∧
      (refs.foldl resolve_step st).2 =
        st.2 + (refs.filterMap
          (fun u => find_node_by_name dbo u.reference_name)).length := by
  induction refs with
  | nil => intro st h; simp
  | cons u rest ih =>
    intro st h
    rw [List.foldl_cons]
    have hstep : resolve_step st u =
        match find_node_by_name dbo u.reference_name with
        | some target =>
            ((insert_edge st.1
              { id := 0, source_id := u.source_node_id, target_id := target.id,
                kind := u.kind, file_path := some u.file_path,
                line := some u.line, column := some u.column }).1, st.2 + 1)
        | none => st := by
      unfold resolve_step
      rw [find_node_by_name_congr h]
    cases hfind : find_node_by_name dbo u.reference_name with
    | none =>
      rw [hstep, hfind]
      have := ih st h
      simpa [hfind] using this
    | some target =>
      have hstep2 : resolve_step st u =
          ((insert_edge st.1
            { id := 0, source_id := u.source_node_id, target_id := target.id,
              kind := u.kind, file_path := some u.file_path,
              line := some u.line, column := some u.column }).1, st.2 + 1) := by
        rw [hstep, hfind]
      rw [hstep2]
      have hnodes : ((insert_edge st.1
          { id := 0, source_id := u.source_node_id, target_id := target.id,
            kind := u.kind, file_path := some u.file_path,
            line := some u.line, column := some u.column }).1).nodes =
          dbo.nodes := by
        simpa [insert_edge] using h
      obtain ⟨h1, h2, h3, h4, h5⟩ := ih ((insert_edge st.1
          { id := 0, source_id := u.source_node_id, target_id := target.id,
            kind := u.kind, file_path := some u.file_path,
            line := some u.line, column := some u.column }).1, st.2 + 1) hnodes
      refine ⟨?_, ?_, ?_, ?_, ?_⟩
      · rw [h1]; simp [insert_edge]
      · rw [h2]; simp [insert_edge]
      · rw [h3]; simp [insert_edge]
      · rw [h4]
        simp [insert_edge, edge_to_row, edge_data, hfind]
      · rw [h5]
        simp only [List.filterMap_cons, hfind, List.length_cons]
        omega

/-- C2 as amended: `resolve_references` inserts, for each staged
unresolved reference whose name resolves to a stored node (the first in
rowid order), one edge of the reference's own kind — `calls` for every
reference the extractor stages — from the reference's `source_node_id` to
that node's id, carrying the reference-site `file_path`, `line` and
`column`; it returns the number of edges inserted, leaves the other
tables untouched, and empties the unresolved-reference table, which is
therefore also empty after any index pass. -/
theorem c2_resolve_references (db : DB) :
    (resolve_references db).1.urefs = [] ∧
    (resolve_references db).1.nodes = db.nodes ∧
    (resolve_references db).1.files = db.files ∧
    (resolve_references db).1.edges.map edge_data =
      db.edges.map edge_data ++
        (get_unresolved_refs db).filterMap (fun u =>
          (find_node_by_name db u.reference_name).map
            (fun t => (u.source_node_id, t.id, u.kind.as_str,
                       some u.file_path, some u.line, some u.column))) ∧
    (resolve_references db).2 =
      ((get_unresolved_refs db).filterMap
        (fun u => find_node_by_name db u.reference_name)).length ∧
    (∀ cfg hash extract now db0 entries,
      (index_codebase cfg hash extract now db0 entries).1.urefs = []) := by
  obtain ⟨h1, h2, h3, h4⟩ := resolve_step_foldl db (get_unresolved_refs db) (db, 0) rfl
  refine ⟨by simp [resolve_references], ?_, ?_, ?_, ?_, ?_⟩
  · simpa [resolve_references] using h1
  · simpa [resolve_references] using h2
  · simpa [resolve_references] using h4.1
  · simpa [resolve_references] using h4.2
  · intro cfg hash extract now db0 entries
    simp [index_codebase, resolve_references]

/-- C2 counterexample: a staged unresolved reference of kind `imports`
resolves to an edge of kind `imports`, not to a `calls` edge as the claim
states. -/
theorem c2_counterexample_kind_not_calls :
    ((resolve_references c2_db).1.edges.map (fun e => e.kind)) =
      [("imports").toList] ∧
    ("imports").toList ≠ ("calls").toList := by
  refine ⟨by decide, by decide⟩

/-- C4 counterexample: on a store with one file, two of its nodes and one
edge between them, deleting in the order the claim states — nodes first —
violates the foreign-key constraints `PRAGMA foreign_keys = ON` enforces,
while the code's actual order (edges, edges, nodes, unresolved refs, file
record) succeeds; so the claim's stated order is not the code's order and
would not keep foreign-key checks holding throughout. -/
theorem c4_counterexample_claimed_order :
    delete_file_claimed_order c4_db test_rs =
      Except.error (("FOREIGN KEY constraint failed").toList) ∧
    delete_file_checked c4_db test_rs = Except.ok (delete_file c4_db test_rs) := by
  constructor
  · rfl
  · rfl

/-- C4 as amended: `delete_file` deletes the file's slice in the source
order — edges whose source is in the file, edges whose target is in the
file, the file's nodes, the file's unresolved refs, the file record — and
under `PRAGMA foreign_keys = ON` every statement passes its foreign-key
checks provided no staged unresolved reference points at a node of the
file (the unresolved-ref table is empty whenever the indexer calls
`delete_file`); afterwards no file, node or unresolved-ref row for the
path remains and no edge touches any of the file's former node ids. -/
theorem c4_delete_file_cascade (db : DB) (path : Str)
    (h : ∀ u ∈ db.urefs, u.source_node_id ∉ file_node_ids db path) :
    delete_file_checked db path = Except.ok (delete_file db path) ∧
    (∀ f ∈ (delete_file db path).files, f.path ≠ path) ∧
    (∀ n ∈ (delete_file db path).nodes, n.file_path ≠ path) ∧
    (∀ u ∈ (delete_file db path).urefs, u.file_path ≠ path) ∧
    (∀ e ∈ (delete_file db path).edges,
      e.source_id ∉ file_node_ids db path ∧
      e.target_id ∉ file_node_ids db path) := by
  have hids1 : file_node_ids (delete_edges_by_source_file db path) path =
      file_node_ids db path := rfl
  have hids2 : file_node_ids
      (delete_edges_by_target_file (delete_edges_by_source_file db path) path)
      path = file_node_ids db path := rfl
  refine ⟨?_, ?_, ?_, ?_, ?_⟩
  · have hc1 : ¬ (((delete_nodes_by_file
        (delete_edges_by_target_file (delete_edges_by_source_file db path) path)
        path).edges.any (fun e =>
          (file_node_ids (delete_edges_by_target_file
            (delete_edges_by_source_file db path) path) path).contains e.source_id ||
          (file_node_ids (delete_edges_by_target_file
            (delete_edges_by_source_file db path) path) path).contains e.target_id)
        || (delete_nodes_by_file
          (delete_edges_by_target_file (delete_edges_by_source_file db path) path)
          path).urefs.any (fun u =>
            (file_node_ids (delete_edges_by_target_file
              (delete_edges_by_source_file db path) path) path).contains
              u.source_node_id)) = true) := by
      rw [hids2]
      intro hbad
      rcases Bool.or_eq_true_iff.mp hbad with hb | hb
      · rcases List.any_eq_true.mp hb with ⟨e, he, hpe⟩
        have he' : (e ∈ (delete_edges_by_source_file db path).edges ∧
            e.target_id ∉ file_node_ids db path) := by
          simpa [delete_nodes_by_file, delete_edges_by_target_file, hids1]
            using he
        have he'' : (e ∈ db.edges ∧ e.source_id ∉ file_node_ids db path) := by
          simpa [delete_edges_by_source_file] using he'.1
        rcases Bool.or_eq_true_iff.mp hpe with hp | hp
        · exact he''.2 (by simpa using hp)
        · exact he'.2 (by simpa using hp)
      · rcases List.any_eq_true.mp hb with ⟨u, hu, hpu⟩
        have hu' : u ∈ db.urefs := by
          simpa [delete_nodes_by_file, delete_edges_by_target_file,
            delete_edges_by_source_file] using hu
        exact h u hu' (by simpa using hpu)
    have hok : delete_nodes_checked
        (delete_edges_by_target_file (delete_edges_by_source_file db path) path)
        path = Except.ok (delete_nodes_by_file
          (delete_edges_by_target_file (delete_edges_by_source_file db path)
            path) path) := by
      unfold delete_nodes_checked
      rw [if_neg hc1]
    have hc2 : ¬ ((delete_file_row
        (delete_urefs_by_file
          (delete_nodes_by_file
            (delete_edges_by_target_file (delete_edges_by_source_file db path)
              path) path) path) path).nodes.any
          (fun n => n.file_path = path) = true) := by
      intro hbad
      rcases List.any_eq_true.mp hbad with ⟨n, hn, hpn⟩
      have hn' : (n ∈ db.nodes ∧ ¬ n.file_path = path) := by
        simpa [delete_file_row, delete_urefs_by_file, delete_nodes_by_file,
          delete_edges_by_target_file, delete_edges_by_source_file] using hn
      simp only [decide_eq_true_eq] at hpn
      exact hn'.2 hpn
    have hred : delete_file_checked db path =
        delete_file_row_checked
          (delete_urefs_by_file
            (delete_nodes_by_file
              (delete_edges_by_target_file (delete_edges_by_source_file db path)
                path) path) path) path := by
      unfold delete_file_checked
      rw [hok]
    rw [hred]
    unfold delete_file_row_checked
    rw [if_neg hc2]
    rfl
  · intro f hf
    have h2 : (f ∈ db.files ∧ ¬ f.path = path) := by
      simpa [delete_file, delete_file_row, delete_urefs_by_file,
        delete_nodes_by_file, delete_edges_by_target_file,
        delete_edges_by_source_file] using hf
    exact h2.2
  · intro n hn
    have h2 : (n ∈ db.nodes ∧ ¬ n.file_path = path) := by
      simpa [delete_file, delete_file_row, delete_urefs_by_file,
        delete_nodes_by_file, delete_edges_by_target_file,
        delete_edges_by_source_file] using hn
    exact h2.2
  · intro u hu
    have h2 : (u ∈ db.urefs ∧ ¬ u.file_path = path) := by
      simpa [delete_file, delete_file_row, delete_urefs_by_file,
        delete_nodes_by_file, delete_edges_by_target_file,
        delete_edges_by_source_file] using hu
    exact h2.2
  · intro e he
    have he2 : (e ∈ (delete_edges_by_source_file db path).edges ∧
        e.target_id ∉ file_node_ids db path) := by
      simpa [delete_file, delete_file_row, delete_urefs_by_file,
        delete_nodes_by_file, delete_edges_by_target_file, hids1] using he
    have he3 : (e ∈ db.edges ∧ e.source_id ∉ file_node_ids db path) := by
      simpa [delete_edges_by_source_file] using he2.1
    exact ⟨he3.2, he2.2⟩

/-- Witness for `c4_delete_file_cascade` on the C4 fixture (whose
unresolved-reference table is empty). -/
theorem c4_delete_file_cascade_witness :
    delete_file_checked c4_db test_rs = Except.ok (delete_file c4_db test_rs) :=
  (c4_delete_file_cascade c4_db test_rs (by decide)).1

theorem toLower_eq_low {c d : Char} (hd : d.toNat < 97) (h : c.toLower = d) :
    c = d := by
  simp only [Char.toLower] at h
  split_ifs at h with hc
  · exfalso
    obtain ⟨h1, h2⟩ := hc
    set n := c.toNat with hn
    interval_cases n <;> (rw [← h] at hd; revert hd; decide)
  · exact h

theorem lowerStr_not_mem {q : Str} {d : Char} (hd : d.toNat < 97) (h : d ∉ q) :
    d ∉ lowerStr q := by
  intro hm
  rcases List.mem_map.mp hm with ⟨c, hc, hcl⟩
  exact h ((toLower_eq_low hd hcl) ▸ hc)

theorem like_match_wild (t : Str) : like_match ['%'] t = true := by
  unfold like_match
  rw [if_pos rfl]
  exact List.any_eq_true.mpr ⟨[], (List.mem_tails _ _).mpr List.nil_suffix, rfl⟩

/-- A `LIKE` pattern `q%` whose stem has no metacharacters matches exactly
the strings with prefix `q`. -/
theorem like_match_startsWith (q : Str) (hq1 : '%' ∉ q) (hq2 : '_' ∉ q) :
    ∀ t, like_match (q ++ ['%']) t = q.isPrefixOf t := by
  induction q with
  | nil => intro t; simpa using like_match_wild t
  | cons c q ih =>
    have hc1 : c ≠ '%' := fun hh => hq1 (by simp [hh])
    have hc2 : c ≠ '_' := fun hh => hq2 (by simp [hh])
    have hq1' : '%' ∉ q := fun hh => hq1 (by simp [hh])
    have hq2' : '_' ∉ q := fun hh => hq2 (by simp [hh])
    intro t
    show like_match (c :: (q ++ ['%'])) t = _
    unfold like_match
    rw [if_neg hc1]
    cases t with
    | nil => simp [List.isPrefixOf]
    | cons d ts =>
      show ((c == '_' || c == d) && like_match (q ++ ['%']) ts) = _
      rw [ih hq1' hq2' ts]
      rw [List.isPrefixOf_cons₂]
      have : (c == '_') = false := beq_eq_false_iff_ne.mpr hc2
      rw [this, Bool.false_or]

theorem like_match_self (q : Str) : like_match (q ++ ['%']) q = true := by
  induction q with
  | nil => simpa using like_match_wild []
  | cons c q ih =>
    show like_match (c :: (q ++ ['%'])) (c :: q) = true
    unfold like_match
    by_cases hc : c = '%'
    · rw [if_pos hc]
      exact List.any_eq_true.mpr
        ⟨q, (List.mem_tails _ _).mpr (List.suffix_cons c q), ih⟩
    · rw [if_neg hc]
      show ((c == '_' || c == c) && like_match (q ++ ['%']) q) = true
      simp [ih]

/-- C5 as amended: for every query free of the SQL `LIKE` metacharacters
`'%'` and `'_'`, `search_nodes` returns exactly the stored nodes whose
lower-cased name starts with the lower-cased query (and matching the kind
filter when one is given), ordered by `(length(name), name)` ascending and
cut to `limit`; `search_nodes("")` matches every node; and a node named
exactly like the query matches the `LIKE` pattern even when the query
contains metacharacters. -/
theorem c5_search_nodes_spec :
    (∀ (db : DB) (q : Str) (kind : Option NodeKind) (limit : Nat),
      '%' ∉ q → '_' ∉ q →
      search_nodes db q kind limit =
        (((db.nodes.filter (fun r =>
            (lowerStr q).isPrefixOf (lowerStr r.name) &&
              (match kind with
               | some k => decide (r.kind = k.as_str)
               | none => true))).insertionSort search_key_le).take limit).map
          row_to_node ∧
      List.Pairwise (fun a b : Node => a.name.length < b.name.length ∨
        (a.name.length = b.name.length ∧ a.name ≤ b.name))
        (search_nodes db q kind limit)) ∧
    (∀ (db : DB) (limit : Nat),
      search_nodes db [] none limit =
        ((db.nodes.insertionSort search_key_le).take limit).map row_to_node) ∧
    (∀ (q : Str) (r : NodeRow), r.name = q →
      like_match (lowerStr q ++ ['%']) (lowerStr r.name) = true) := by
  have hsorted : ∀ (db : DB) (q : Str) (kind : Option NodeKind) (limit : Nat),
      List.Pairwise (fun a b : Node => a.name.length < b.name.length ∨
        (a.name.length = b.name.length ∧ a.name ≤ b.name))
        (search_nodes db q kind limit) := by
    intro db q kind limit
    unfold search_nodes
    have hs := List.sorted_insertionSort search_key_le
      (db.nodes.filter (fun r =>
        like_match (lowerStr q ++ ['%']) (lowerStr r.name) &&
          (match kind with
           | some k => decide (r.kind = k.as_str)
           | none => true)))
    have htake := List.Pairwise.sublist (List.take_sublist limit _) hs
    exact List.Pairwise.map row_to_node (fun a b hab => hab) htake
  refine ⟨?_, ?_, ?_⟩
  · intro db q kind limit hq1 hq2
    refine ⟨?_, hsorted db q kind limit⟩
    unfold search_nodes
    rw [List.filter_congr (fun r _ => by
      rw [like_match_startsWith (lowerStr q)
        (lowerStr_not_mem (by decide) hq1)
        (lowerStr_not_mem (by decide) hq2) (lowerStr r.name)])]
  · intro db limit
    unfold search_nodes
    rw [List.filter_congr (fun r _ => by
      rw [like_match_startsWith (lowerStr [])
        (lowerStr_not_mem (by decide) (by decide))
        (lowerStr_not_mem (by decide) (by decide)) (lowerStr r.name)])]
    simp [lowerStr]
  · intro q r hname
    rw [hname]
    exact like_match_self (lowerStr q)

/-- C5 counterexample: the query `"_"` is passed unescaped into the SQL
`LIKE` pattern, so it matches the node named `ab`, whose name does not
start with `"_"`. -/
theorem c5_counterexample_underscore :
    (search_nodes c5_db (("_").toList) none 10).map (fun n => n.name) =
      [("ab").toList] ∧
    List.isPrefixOf (lowerStr (("_").toList)) (lowerStr (("ab").toList)) =
      false := by
  refine ⟨by decide, by decide⟩

/-- Witness for `c5_search_nodes_spec` on the C5 fixture. -/
theorem c5_search_nodes_spec_witness :
    search_nodes c5_db (("a").toList) none 10 =
      (((c5_db.nodes.filter (fun r =>
          (lowerStr (("a").toList)).isPrefixOf (lowerStr r.name) &&
            true)).insertionSort search_key_le).take 10).map row_to_node :=
  (c5_search_nodes_spec.1 c5_db (("a").toList) none 10 (by decide)
    (by decide)).1

theorem related_upsert_inv {visited : List Int} {m : List (Int × Node × Score)}
    (hnd : (m.map (fun e => e.1)).Nodup)
    (hpt : ∀ x ∈ m, x.2.1.id = x.1 ∧ x.1 ∉ visited)
    {id : Int} {n : Node} {s : Score} (hid : n.id = id) (hvis : id ∉ visited) :
    ((related_upsert m id n s).map (fun e => e.1)).Nodup ∧
      ∀ x ∈ related_upsert m id n s, x.2.1.id = x.1 ∧ x.1 ∉ visited := by
  unfold related_upsert
  split_ifs with hpresent
  · have hkeys : (m.map (fun e => if e.1 = id then (e.1, e.2.1, Score.add e.2.2 s)
        else e)).map (fun e => e.1) = m.map (fun e => e.1) := by
      rw [List.map_map]
      exact List.map_congr_left (fun x _ => by by_cases h : x.1 = id <;> simp [h])
    refine ⟨by rw [hkeys]; exact hnd, ?_⟩
    intro x hx
    rcases List.mem_map.mp hx with ⟨y, hy, hxy⟩
    by_cases h : y.1 = id
    · rw [if_pos h] at hxy
      obtain ⟨hy1, hy2⟩ := hpt y hy
      subst hxy
      exact ⟨hy1, hy2⟩
    · rw [if_neg h] at hxy
      subst hxy
      exact hpt y hy
  · constructor
    · rw [List.map_append]
      rw [List.nodup_append]
      refine ⟨hnd, List.nodup_singleton _, ?_⟩
      intro a ha hb
      simp only [List.map_cons, List.map_nil, List.mem_singleton] at hb
      subst hb
      rcases List.mem_map.mp ha with ⟨y, hy, hya⟩
      exact hpresent (List.any_eq_true.mpr ⟨y, hy, by simp [hya]⟩)
    · intro x hx
      rcases List.mem_append.mp hx with hx | hx
      · exact hpt x hx
      · simp only [List.mem_singleton] at hx
        subst hx
        exact ⟨hid, hvis⟩

theorem score_fold_inv (visited : List Int) (f : Nat × Node → Score) :
    ∀ (ps : List (Nat × Node)) (m : List (Int × Node × Score)),
      (m.map (fun e => e.1)).Nodup →
      (∀ x ∈ m, x.2.1.id = x.1 ∧ x.1 ∉ visited) →
      (((ps.foldl (fun m p => if visited.contains p.2.id then m
          else related_upsert m p.2.id p.2 (f p)) m).map (fun e => e.1)).Nodup ∧
        ∀ x ∈ ps.foldl (fun m p => if visited.contains p.2.id then m
          else related_upsert m p.2.id p.2 (f p)) m,
          x.2.1.id = x.1 ∧ x.1 ∉ visited) := by
  intro ps
  induction ps with
  | nil => intro m h1 h2; exact ⟨h1, h2⟩
  | cons p rest ih =>
    intro m h1 h2
    rw [List.foldl_cons]
    by_cases hvis : visited.contains p.2.id
    · rw [if_pos hvis]
      exact ih m h1 h2
    · rw [if_neg hvis]
      have hvis' : p.2.id ∉ visited := by
        intro hmem
        exact hvis (by simpa using hmem)
      obtain ⟨h1', h2'⟩ := related_upsert_inv h1 h2 rfl hvis'
      exact ih _ h1' h2'

theorem related_fold_inv (db : DB) (visited : List Int) :
    ∀ (entries : List Node) (m : List (Int × Node × Score)),
      (m.map (fun e => e.1)).Nodup →
      (∀ x ∈ m, x.2.1.id = x.1 ∧ x.1 ∉ visited) →
      ((entries.foldl (fun m entry =>
          ((get_callers db entry.id 10).enum).foldl
            (fun m p => if visited.contains p.2.id then m
              else related_upsert m p.2.id p.2 { num := 4, den := 5 * (p.1 + 1) })
            (((get_callees db entry.id 10).enum).foldl
              (fun m p => if visited.contains p.2.id then m
                else related_upsert m p.2.id p.2 { num := 1, den := p.1 + 1 }) m))
          m).map (fun e => e.1)).Nodup ∧
        ∀ x ∈ (entries.foldl (fun m entry =>
          ((get_callers db entry.id 10).enum).foldl
            (fun m p => if visited.contains p.2.id then m
              else related_upsert m p.2.id p.2 { num := 4, den := 5 * (p.1 + 1) })
            (((get_callees db entry.id 10).enum).foldl
              (fun m p => if visited.contains p.2.id then m
                else related_upsert m p.2.id p.2 { num := 1, den := p.1 + 1 }) m))
          m), x.2.1.id = x.1 ∧ x.1 ∉ visited := by
  intro entries
  induction entries with
  | nil => intro m h1 h2; exact ⟨h1, h2⟩
  | cons entry rest ih =>
    intro m h1 h2
    rw [List.foldl_cons]
    obtain ⟨ha, hb⟩ := score_fold_inv visited (fun p => { num := 1, den := p.1 + 1 })
      ((get_callees db entry.id 10).enum) m h1 h2
    obtain ⟨hc, hd⟩ := score_fold_inv visited
      (fun p => { num := 4, den := 5 * (p.1 + 1) })
      ((get_callers db entry.id 10).enum) _ ha hb
    exact ih _ hc hd

theorem take_sorted_inv (visited : List Int) (rel : List (Int × Node × Score))
    (k : Nat) (hnd : (rel.map (fun e => e.1)).Nodup)
    (hpt : ∀ x ∈ rel, x.2.1.id = x.1 ∧ x.1 ∉ visited) :
    (∀ n ∈ ((rel.insertionSort (fun a b => Score.le b.2.2 a.2.2)).take k).map
        (fun e => e.2.1), n.id ∉ visited) ∧
    ((((rel.insertionSort (fun a b => Score.le b.2.2 a.2.2)).take k).map
        (fun e => e.2.1)).map (fun n => n.id)).Nodup := by
  have hperm := List.perm_insertionSort (fun a b => Score.le b.2.2 a.2.2) rel
  have hmem : ∀ x ∈ (rel.insertionSort
      (fun a b => Score.le b.2.2 a.2.2)).take k, x ∈ rel := by
    intro x hx
    exact hperm.mem_iff.mp (List.Sublist.mem hx (List.take_sublist _ _))
  constructor
  · intro n hn
    rcases List.mem_map.mp hn with ⟨x, hx, hxn⟩
    obtain ⟨hid, hvis⟩ := hpt x (hmem x hx)
    rw [← hxn]
    rw [hid]
    exact hvis
  · rw [List.map_map]
    have hcongr : ((rel.insertionSort (fun a b => Score.le b.2.2 a.2.2)).take
        k).map ((fun n : Node => n.id) ∘ (fun e : Int × Node × Score => e.2.1)) =
        ((rel.insertionSort (fun a b => Score.le b.2.2 a.2.2)).take k).map
          (fun e => e.1) := by
      exact List.map_congr_left (fun x hx => (hpt x (hmem x hx)).1)
    rw [hcongr]
    have hsub : (((rel.insertionSort (fun a b => Score.le b.2.2 a.2.2)).take
        k).map (fun e => e.1)).Sublist
        ((rel.insertionSort (fun a b => Score.le b.2.2 a.2.2)).map
          (fun e => e.1)) :=
      List.Sublist.map _ (List.take_sublist _ _)
    have hnd2 : ((rel.insertionSort (fun a b => Score.le b.2.2 a.2.2)).map
        (fun e => e.1)).Nodup :=
      ((hperm.map (fun e => e.1)).nodup_iff).mpr hnd
    exact List.Sublist.nodup hsub hnd2

/-- C10: the related-symbol list returned by `find_related` never reports
an entry point (the visited set is seeded with every entry-point id) and
contains each node id at most once (the score map is keyed on node id). -/
theorem c10_find_related (db : DB) (entry_points : List Node) (max_nodes : Nat) :
    (∀ n ∈ find_related db entry_points max_nodes,
      ∀ e ∈ entry_points, n.id ≠ e.id) ∧
    ((find_related db entry_points max_nodes).map (fun n => n.id)).Nodup := by
  obtain ⟨hnd, hpt⟩ := related_fold_inv db (entry_points.map (fun e => e.id))
    entry_points [] (by simp) (by simp)
  obtain ⟨h1, h2⟩ := take_sorted_inv (entry_points.map (fun e => e.id)) _
    max_nodes hnd hpt
  have heq : find_related db entry_points max_nodes =
      (((entry_points.foldl (fun m entry =>
        ((get_callers db entry.id 10).enum).foldl
          (fun m p => if (entry_points.map (fun e => e.id)).contains p.2.id then m
            else related_upsert m p.2.id p.2 { num := 4, den := 5 * (p.1 + 1) })
          (((get_callees db entry.id 10).enum).foldl
            (fun m p => if (entry_points.map (fun e => e.id)).contains p.2.id then m
              else related_upsert m p.2.id p.2 { num := 1, den := p.1 + 1 }) m))
        []).insertionSort (fun a b => Score.le b.2.2 a.2.2)).take max_nodes).map
        (fun e => e.2.1) := rfl
  rw [heq]
  constructor
  · intro n hn e he hne
    exact (h1 n hn) (hne ▸ List.mem_map_of_mem (fun e => e.id) he)
  · exact h2

/-- Witness for `c10_find_related` on the C7 fixture: the related node
(the callee, id 2) is not the entry point (id 1). -/
theorem c10_find_related_witness :
    (row_to_node (node_to_row 2 (mk_node (("callee_fn").toList)))).id ≠
      ({ mk_node (("caller_fn").toList) with id := 1 } : Node).id :=
  (c10_find_related c7_db [{ mk_node (("caller_fn").toList) with id := 1 }] 10).1
    (row_to_node (node_to_row 2 (mk_node (("callee_fn").toList)))) (by decide)
    { mk_node (("caller_fn").toList) with id := 1 } (by decide)

theorem get_callers_id_mem (db : DB) (id : Int) (lim : Nat) :
    ∀ c ∈ get_callers db id lim, c.id ∈ cand_ids db := by
  intro c hc
  unfold get_callers at hc
  have hc2 := List.Sublist.mem hc (List.take_sublist _ _)
  rcases List.mem_filterMap.mp hc2 with ⟨e, _, hmap⟩
  rcases Option.map_eq_some'.mp hmap with ⟨row, hfind, hrow⟩
  have hrowmem := List.mem_of_find?_eq_some hfind
  unfold cand_ids
  refine List.mem_toFinset.mpr (List.mem_map.mpr ⟨row, hrowmem, ?_⟩)
  rw [← hrow]
  rfl

theorem impact_visit_measure (db : DB) (d : Nat) (st : BfsState) (c : Node)
    (hc : c.id ∈ cand_ids db) :
    bfs_measure db (impact_visit d st c) ≤ bfs_measure db st := by
  unfold impact_visit
  split_ifs with h hd
  · exact le_refl _
  all_goals
    unfold bfs_measure
    simp only [List.length_append, List.length_cons, List.length_nil]
    rw [Finset.sdiff_insert]
    rw [Finset.card_erase_of_mem (Finset.mem_sdiff.mpr ⟨hc, h⟩)]
    have hpos : 0 < (cand_ids db \ st.visited).card :=
      Finset.card_pos.mpr ⟨c.id, Finset.mem_sdiff.mpr ⟨hc, h⟩⟩
    omega

theorem impact_visit_visited (d : Nat) (st : BfsState) (c : Node) :
    st.visited ⊆ (impact_visit d st c).visited := by
  unfold impact_visit
  split_ifs with h hd
  · exact subset_rfl
  all_goals exact Finset.subset_insert _ _

theorem impact_visit_fold_measure (db : DB) (d : Nat) :
    ∀ (callers : List Node) (st : BfsState),
      (∀ c ∈ callers, c.id ∈ cand_ids db) →
      bfs_measure db (callers.foldl (impact_visit d) st) ≤ bfs_measure db st := by
  intro callers
  induction callers with
  | nil => intro st _; exact le_refl _
  | cons c rest ih =>
    intro st hcand
    rw [List.foldl_cons]
    exact le_trans (ih _ (fun x hx => hcand x (List.mem_cons_of_mem c hx)))
      (impact_visit_measure db d st c (hcand c (List.mem_cons_self c rest)))

theorem impact_visit_fold_inv (d : Nat) (rid : Int) :
    ∀ (callers : List Node) (st : BfsState), rid ∈ st.visited →
      (∀ c ∈ st.direct_callers ++ st.indirect_callers, c.id ≠ rid) →
      rid ∈ (callers.foldl (impact_visit d) st).visited ∧
        ∀ c ∈ (callers.foldl (impact_visit d) st).direct_callers ++
            (callers.foldl (impact_visit d) st).indirect_callers, c.id ≠ rid := by
  intro callers
  induction callers with
  | nil => intro st h1 h2; exact ⟨h1, h2⟩
  | cons c rest ih =>
    intro st h1 h2
    rw [List.foldl_cons]
    refine ih (impact_visit d st c) (impact_visit_visited d st c h1) ?_
    intro x hx
    unfold impact_visit at hx
    split_ifs at hx with h hd
    · exact h2 x hx
    · have hcid : c.id ≠ rid := fun hh => h (hh ▸ h1)
      simp only [List.mem_append, List.mem_singleton] at hx
      rcases hx with (hx | rfl) | hx
      · exact h2 x (List.mem_append_left _ hx)
      · exact hcid
      · exact h2 x (List.mem_append_right _ hx)
    · have hcid : c.id ≠ rid := fun hh => h (hh ▸ h1)
      simp only [List.mem_append, List.mem_singleton] at hx
      rcases hx with hx | (hx | rfl)
      · exact h2 x (List.mem_append_left _ hx)
      · exact h2 x (List.mem_append_right _ hx)
      · exact hcid

theorem impact_bfs_stable (db : DB) (depth : Nat) :
    ∀ (n fuel : Nat) (st : BfsState), bfs_measure db st ≤ n → n ≤ fuel →
      impact_bfs db depth fuel st = impact_bfs db depth n st := by
  intro n
  induction n with
  | zero =>
    intro fuel st hm _
    have hq : st.queue = [] := by
      unfold bfs_measure at hm
      cases hq : st.queue with
      | nil => rfl
      | cons a t => rw [hq] at hm; simp at hm
    cases fuel with
    | zero => rfl
    | succ f =>
      show impact_bfs db depth (f + 1) st = impact_bfs db depth 0 st
      simp only [impact_bfs, hq]
  | succ n ih =>
    intro fuel st hm hf
    obtain ⟨f, rfl⟩ : ∃ f, fuel = f + 1 := ⟨fuel - 1, by omega⟩
    cases hq : st.queue with
    | nil => simp only [impact_bfs, hq]
    | cons x rest =>
      obtain ⟨id, d⟩ := x
      have hf' : n ≤ f := by omega
      by_cases hd : depth ≤ d
      · have hm' : bfs_measure db { st with queue := rest } ≤ n := by
          unfold bfs_measure at hm ⊢
          rw [hq] at hm
          simp only [List.length_cons] at hm
          simp only []
          omega
        have e1 : impact_bfs db depth (f + 1) st =
            impact_bfs db depth f { st with queue := rest } := by
          simp only [impact_bfs, hq]
          rw [if_pos hd]
        have e2 : impact_bfs db depth (n + 1) st =
            impact_bfs db depth n { st with queue := rest } := by
          simp only [impact_bfs, hq]
          rw [if_pos hd]
        rw [e1, e2, ih f { st with queue := rest } hm' hf']
      · have hm' : bfs_measure db ((get_callers db id 100).foldl (impact_visit d)
            { st with queue := rest }) ≤ n := by
          refine le_trans (impact_visit_fold_measure db d _ _
            (get_callers_id_mem db id 100)) ?_
          unfold bfs_measure at hm ⊢
          rw [hq] at hm
          simp only [List.length_cons] at hm
          simp only []
          omega
        have e1 : impact_bfs db depth (f + 1) st =
            impact_bfs db depth f ((get_callers db id 100).foldl (impact_visit d)
              { st with queue := rest }) := by
          simp only [impact_bfs, hq]
          rw [if_neg hd]
        have e2 : impact_bfs db depth (n + 1) st =
            impact_bfs db depth n ((get_callers db id 100).foldl (impact_visit d)
              { st with queue := rest }) := by
          simp only [impact_bfs, hq]
          rw [if_neg hd]
        rw [e1, e2, ih f _ hm' hf']

theorem impact_bfs_excludes (db : DB) (depth : Nat) (rid : Int) :
    ∀ (fuel : Nat) (st : BfsState), rid ∈ st.visited →
      (∀ c ∈ st.direct_callers ++ st.indirect_callers, c.id ≠ rid) →
      ∀ c ∈ (impact_bfs db depth fuel st).direct_callers ++
          (impact_bfs db depth fuel st).indirect_callers, c.id ≠ rid := by
  intro fuel
  induction fuel with
  | zero => intro st _ h2; exact h2
  | succ f ih =>
    intro st h1 h2
    cases hq : st.queue with
    | nil =>
      simp only [impact_bfs, hq]
      exact h2
    | cons x rest =>
      obtain ⟨id, d⟩ := x
      by_cases hd : depth ≤ d
      · simp only [impact_bfs, hq]
        rw [if_pos hd]
        exact ih { st with queue := rest } h1 h2
      · simp only [impact_bfs, hq]
        rw [if_neg hd]
        obtain ⟨h1', h2'⟩ := impact_visit_fold_inv d rid (get_callers db id 100)
          { st with queue := rest } h1 h2
        exact ih _ h1' h2'

/-- C7: the BFS of `analyze_impact` terminates on every finite stored
graph — the a-priori fuel `bfs_measure` (unvisited ids plus queue length)
suffices, so any larger fuel gives the same result, which is the
termination argument for the source's unbounded loop under cycles — and
the root node resolved from the symbol name appears in neither the direct
nor the indirect callers, because its id seeds the visited set. -/
theorem c7_analyze_impact (db : DB) (symbol_name : Str) (depth : Nat) :
    (∀ (fuel : Nat) (st : BfsState), bfs_measure db st ≤ fuel →
      impact_bfs db depth fuel st = impact_bfs db depth (bfs_measure db st) st) ∧
    (∀ root, (analyze_impact db symbol_name depth).root = some root →
      root ∉ (analyze_impact db symbol_name depth).direct_callers ∧
      root ∉ (analyze_impact db symbol_name depth).indirect_callers) := by
  constructor
  · intro fuel st hm
    exact impact_bfs_stable db depth (bfs_measure db st) fuel st (le_refl _) hm
  · intro root hroot
    cases hfind : find_node_by_name db symbol_name with
    | none => simp [analyze_impact, hfind] at hroot
    | some r =>
      have hr : r = root := by
        simpa [analyze_impact, hfind] using hroot
      subst hr
      constructor <;> intro hmem
      · simp only [analyze_impact, hfind] at hmem
        exact impact_bfs_excludes db depth r.id _ _
          (Finset.mem_singleton_self _) (by simp) r
          (List.mem_append_left _ hmem) rfl
      · simp only [analyze_impact, hfind] at hmem
        exact impact_bfs_excludes db depth r.id _ _
          (Finset.mem_singleton_self _) (by simp) r
          (List.mem_append_right _ hmem) rfl

/-- Witness for `c7_analyze_impact` on the C7 fixture: the root resolved
from `callee_fn` is not among its own callers. -/
theorem c7_analyze_impact_witness :
    (analyze_impact c7_db (("callee_fn").toList) 2).root =
      some (row_to_node (node_to_row 2 (mk_node (("callee_fn").toList)))) ∧
    row_to_node (node_to_row 2 (mk_node (("callee_fn").toList))) ∉
      (analyze_impact c7_db (("callee_fn").toList) 2).direct_callers :=
  ⟨by decide,
   ((c7_analyze_impact c7_db (("callee_fn").toList) 2).2
      (row_to_node (node_to_row 2 (mk_node (("callee_fn").toList))))
      (by decide)).1⟩

-- ===========================================================================
-- C9: build_context code blocks
-- ===========================================================================

/-- Characterisation of one successful `code_block_for`: the node is not a
file node, its source file is readable, and the block's fields follow the
slice/truncate/context formulas of `build_code_blocks`. -/
theorem code_block_for_spec (reader : Str → Option Str) (root : Str)
    (opts : ContextOptions) (node : Node) (b : CodeBlock)
    (hsome : code_block_for reader root opts node = some b) :
    b.node = node ∧ ¬ b.node.kind = NodeKind.File ∧
    ∃ content, reader (join_path root b.node.file_path) = some content ∧
      ∃ ls start stop, ls = rustLines content ∧
        start = b.node.start_line - 1 ∧
        stop = min b.node.end_line ls.length ∧ start < ls.length ∧
        ∃ code0,
          code0 = List.intercalate (("\n").toList)
            ((ls.drop start).take (stop - start)) ∧
          b.code = (if opts.max_block_size < code0.length then
              code0.take opts.max_block_size ++ ("\n// ... truncated").toList
            else code0) ∧
          b.context_before = (if 0 < start then
              some (List.intercalate (("\n").toList)
                ((ls.drop (start - 3)).take (start - (start - 3))))
            else none) ∧
          b.context_after = (if stop < ls.length then
              some (List.intercalate (("\n").toList)
                ((ls.drop stop).take (min (stop + 3) ls.length - stop)))
            else none) := by
  simp only [code_block_for] at hsome
  split at hsome
  · exact absurd hsome (by simp)
  · next hkind =>
    split at hsome
    · exact absurd hsome (by simp)
    · next content hread =>
      split at hsome
      · exact absurd hsome (by simp)
      · next hlen =>
        obtain rfl := Option.some.inj hsome
        exact ⟨rfl, hkind, content, hread, rustLines content,
          node.start_line - 1, min node.end_line (rustLines content).length,
          rfl, rfl, rfl, Nat.lt_of_not_le hlen,
          List.intercalate (("\n").toList)
            (((rustLines content).drop (node.start_line - 1)).take
              (min node.end_line (rustLines content).length -
                (node.start_line - 1))),
          rfl, rfl, rfl, rfl⟩

/-- C9: when `include_code` is enabled, `build_context` builds its code
blocks with `build_code_blocks` over the entry points; at most
`max_code_blocks` blocks are produced, each comes from one of the first
`max_code_blocks` entry points that is not a file node and whose source
file reads successfully, its code is the joined slice of lines
`[start_line-1, min(end_line, line_count))` truncated to `max_block_size`
characters with `"\n// ... truncated"` appended when longer, with up to 3
lines of before/after context; an entry point whose file cannot be read
yields no block (and no error: the builder is total). -/
theorem c9_build_context_code_blocks (reader : Str → Option Str) (db : DB)
    (project_root task : Str) (opts : ContextOptions)
    (hinc : opts.include_code = true) :
    (build_context reader db project_root task opts).code_blocks =
      build_code_blocks reader project_root
        (build_context reader db project_root task opts).entry_points opts ∧
    (build_context reader db project_root task opts).code_blocks.length ≤
      opts.max_code_blocks ∧
    (∀ b ∈ (build_context reader db project_root task opts).code_blocks,
      b.node ∈ (build_context reader db project_root task
          opts).entry_points.take opts.max_code_blocks ∧
      ¬ b.node.kind = NodeKind.File ∧
      ∃ content, reader (join_path project_root b.node.file_path) =
          some content ∧
        ∃ ls start stop, ls = rustLines content ∧
          start = b.node.start_line - 1 ∧
          stop = min b.node.end_line ls.length ∧ start < ls.length ∧
          ∃ code0,
            code0 = List.intercalate (("\n").toList)
              ((ls.drop start).take (stop - start)) ∧
            b.code = (if opts.max_block_size < code0.length then
                code0.take opts.max_block_size ++
                  ("\n// ... truncated").toList
              else code0) ∧
            b.context_before = (if 0 < start then
                some (List.intercalate (("\n").toList)
                  ((ls.drop (start - 3)).take (start - (start - 3))))
              else none) ∧
            b.context_after = (if stop < ls.length then
                some (List.intercalate (("\n").toList)
                  ((ls.drop stop).take (min (stop + 3) ls.length - stop)))
              else none)) ∧
    (∀ n ∈ (build_context reader db project_root task opts).entry_points,
      reader (join_path project_root n.file_path) = none →
      ∀ b ∈ (build_context reader db project_root task opts).code_blocks,
        ¬ b.node = n) := by
  have hep : (build_context reader db project_root task opts).entry_points =
      find_entry_points db task (opts.max_nodes / 2) := rfl
  have hcb : (build_context reader db project_root task opts).code_blocks =
      build_code_blocks reader project_root
        (find_entry_points db task (opts.max_nodes / 2)) opts := by
    simp only [build_context, hinc, if_true]
  refine ⟨by rw [hcb, hep], ?_, ?_, ?_⟩
  · rw [hcb]
    simp only [build_code_blocks]
    exact le_trans (List.length_filterMap_le _ _) (List.length_take_le _ _)
  · rw [hcb, hep]
    intro b hb
    simp only [build_code_blocks] at hb
    obtain ⟨node, hnode, hsome⟩ := List.mem_filterMap.mp hb
    obtain ⟨hbn, hkind, hrest⟩ :=
      code_block_for_spec reader project_root opts node b hsome
    refine ⟨?_, hkind, hrest⟩
    rw [hbn]
    exact hnode
  · rw [hcb, hep]
    intro n _ hnone b hb hbn
    simp only [build_code_blocks] at hb
    obtain ⟨node, hnode, hsome⟩ := List.mem_filterMap.mp hb
    obtain ⟨hbn2, hkind, content, hread, -⟩ :=
      code_block_for_spec reader project_root opts node b hsome
    rw [hbn, hnone] at hread
    exact Option.noConfusion hread

/-- Witness for `c9_build_context_code_blocks` on the C9 fixture with the
default options (`include_code = true`). -/
theorem c9_build_context_code_blocks_witness :
    ({} : ContextOptions).include_code = true ∧
    (build_context c9_reader c9_db (("root").toList) (("helper").toList)
        {}).code_blocks.length ≤ ({} : ContextOptions).max_code_blocks :=
  ⟨rfl, (c9_build_context_code_blocks c9_reader c9_db (("root").toList)
      (("helper").toList) {} rfl).2.1⟩

-- ===========================================================================
-- C3: re-indexing unchanged contents is a no-op
-- ===========================================================================

/-- `needs_reindex` is false exactly when the stored hash matches. -/
theorem needs_reindex_false_iff (db : DB) (p h : Str) :
    needs_reindex db p h = false ↔ file_hash db p = some h := by
  simp only [needs_reindex, get_file, file_hash]
  cases hfind : db.files.find? (fun r => r.path = p) with
  | none => simp
  | some r => simp

/-- Keyed lookup after the upsert's UPDATE branch, away from the updated
key. -/
theorem files_find_upd_other (l : List FileRow) (row : FileRow) (q p : Str)
    (hrow : ¬ row.path = p) (hqp : ¬ q = p) :
    (l.map (fun r => if r.path = q then row else r)).find?
        (fun r => r.path = p) =
      l.find? (fun r => r.path = p) := by
  induction l with
  | nil => rfl
  | cons a l ih =>
    by_cases ha : a.path = q
    · have hap : ¬ a.path = p := by rw [ha]; exact hqp
      simp only [List.map_cons, if_pos ha]
      rw [List.find?_cons_of_neg _ (by simp [hrow]),
          List.find?_cons_of_neg _ (by simp [hap])]
      exact ih
    · simp only [List.map_cons, if_neg ha]
      by_cases hap : a.path = p
      · rw [List.find?_cons_of_pos _ (by simp [hap]),
            List.find?_cons_of_pos _ (by simp [hap])]
      · rw [List.find?_cons_of_neg _ (by simp [hap]),
            List.find?_cons_of_neg _ (by simp [hap])]
        exact ih

/-- Keyed lookup after the upsert's UPDATE branch, at the updated key. -/
theorem files_find_upd_self (l : List FileRow) (row : FileRow) (q : Str)
    (hrow : row.path = q) (hl : l.any (fun r => r.path = q) = true) :
    (l.map (fun r => if r.path = q then row else r)).find?
        (fun r => r.path = q) = some row := by
  induction l with
  | nil => simp at hl
  | cons a l ih =>
    by_cases ha : a.path = q
    · simp only [List.map_cons, if_pos ha]
      rw [List.find?_cons_of_pos _ (by simp [hrow])]
    · simp only [List.map_cons, if_neg ha]
      rw [List.find?_cons_of_neg _ (by simp [ha])]
      exact ih (by simpa [ha] using hl)

/-- Keyed lookup after the upsert's INSERT branch, at the inserted key. -/
theorem files_find_append (l : List FileRow) (row : FileRow) (q : Str)
    (hrow : row.path = q) (hl : l.any (fun r => r.path = q) = false) :
    (l ++ [row]).find? (fun r => r.path = q) = some row := by
  rw [List.find?_append]
  have h1 : l.find? (fun r => r.path = q) = none := by
    rw [List.find?_eq_none]
    intro x hx
    simp only [List.any_eq_false] at hl
    exact hl x hx
  rw [h1]
  simp [hrow]

/-- Keyed lookup after the upsert's INSERT branch, away from the inserted
key. -/
theorem files_find_append_other (l : List FileRow) (row : FileRow) (p : Str)
    (hrow : ¬ row.path = p) :
    (l ++ [row]).find? (fun r => r.path = p) =
      l.find? (fun r => r.path = p) := by
  rw [List.find?_append]
  have h1 : [row].find? (fun r => r.path = p) = none := by simp [hrow]
  rw [h1]
  cases l.find? (fun r => r.path = p) <;> rfl

/-- Keyed lookup after a keyed DELETE, away from the deleted key. -/
theorem files_find_filter_ne (l : List FileRow) (q p : Str)
    (hne : ¬ q = p) :
    (l.filter (fun f => ¬ f.path = q)).find? (fun r => r.path = p) =
      l.find? (fun r => r.path = p) := by
  induction l with
  | nil => rfl
  | cons a l ih =>
    by_cases haq : a.path = q
    · have hap : ¬ a.path = p := by rw [haq]; exact hne
      rw [List.filter_cons_of_neg (by simp [haq]),
          List.find?_cons_of_neg _ (by simp [hap])]
      exact ih
    · by_cases hap : a.path = p
      · rw [List.filter_cons_of_pos (by simp [haq]),
            List.find?_cons_of_pos _ (by simp [hap]),
            List.find?_cons_of_pos _ (by simp [hap])]
      · rw [List.filter_cons_of_pos (by simp [haq]),
            List.find?_cons_of_neg _ (by simp [hap]),
            List.find?_cons_of_neg _ (by simp [hap])]
        exact ih

/-- `insert_or_update_file` leaves the stored hash of every other path
unchanged. -/
theorem file_hash_insert_other (db : DB) (rec : FileRecord) (p : Str)
    (hne : ¬ rec.path = p) :
    file_hash (insert_or_update_file db rec) p = file_hash db p := by
  simp only [file_hash, insert_or_update_file]
  split
  · exact congrArg (Option.map _)
      (files_find_upd_other db.files _ rec.path p hne hne)
  · exact congrArg (Option.map _)
      (files_find_append_other db.files _ p hne)

/-- `insert_or_update_file` stores the record's hash under its path. -/
theorem file_hash_insert_self (db : DB) (rec : FileRecord) :
    file_hash (insert_or_update_file db rec) rec.path =
      some rec.content_hash := by
  simp only [file_hash, insert_or_update_file]
  split
  · next hany =>
    refine (congrArg (Option.map _)
      (files_find_upd_self db.files _ rec.path ?_ ?_)).trans ?_
    · rfl
    · exact hany
    · rfl
  · next hany =>
    refine (congrArg (Option.map _)
      (files_find_append db.files _ rec.path ?_ ?_)).trans ?_
    · rfl
    · exact (Bool.not_eq_true _) ▸ hany
    · rfl

/-- `delete_file` leaves the stored hash of every other path unchanged. -/
theorem file_hash_delete_other (db : DB) (q p : Str) (hne : ¬ q = p) :
    file_hash (delete_file db q) p = file_hash db p :=
  congrArg (Option.map _) (files_find_filter_ne db.files q p hne)

/-- The node-insertion loop of `index_codebase` never touches the files
table. -/
theorem node_fold_file_hash (ns : List Node)
    (acc : DB × List (Int × Int) × Nat) (p : Str) :
    file_hash (ns.foldl index_node_step acc).1 p = file_hash acc.1 p := by
  induction ns generalizing acc with
  | nil => rfl
  | cons n ns ih =>
    rw [List.foldl_cons]
    exact ih _

/-- The edge-insertion loop of `index_codebase` never touches the files
table. -/
theorem edge_fold_file_hash (es : List Edge) (m : List (Int × Int))
    (acc : DB × Nat) (p : Str) :
    file_hash (es.foldl (index_edge_step m) acc).1 p = file_hash acc.1 p := by
  induction es generalizing acc with
  | nil => rfl
  | cons e es ih =>
    rw [List.foldl_cons]
    refine (ih _).trans ?_
    simp only [index_edge_step]
    cases id_lookup m e.source_id with
    | none => rfl
    | some ns =>
      cases id_lookup m e.target_id with
      | none => rfl
      | some nt => rfl

/-- The unresolved-reference staging loop of `index_codebase` never
touches the files table. -/
theorem uref_fold_file_hash (us : List UnresolvedReference)
    (m : List (Int × Int)) (db : DB) (p : Str) :
    file_hash (us.foldl (index_uref_step m) db) p = file_hash db p := by
  induction us generalizing db with
  | nil => rfl
  | cons u us ih =>
    rw [List.foldl_cons]
    refine (ih _).trans ?_
    simp only [index_uref_step]
    cases id_lookup m u.source_node_id with
    | none => rfl
    | some ns => rfl

/-- The `resolve_references` loop never touches the files table. -/
theorem resolve_fold_files (us : List UnresolvedReference) (st : DB × Nat) :
    (us.foldl resolve_step st).1.files = st.1.files := by
  induction us generalizing st with
  | nil => rfl
  | cons u us ih =>
    rw [List.foldl_cons]
    refine (ih _).trans ?_
    simp only [resolve_step]
    cases find_node_by_name st.1 u.reference_name with
    | none => rfl
    | some t => rfl

/-- One walk-loop iteration leaves the stored hash of every other relative
path unchanged. -/
theorem index_step_file_hash_other (cfg : IndexConfig) (hash : Str → Str)
    (extract : Str → Str → ExtractionResult) (now : Int)
    (st : DB × IndexStats) (e : Entry) (p : Str)
    (hne : ¬ strip_root cfg.root e.path = p) :
    file_hash (index_step cfg hash extract now st e).1 p =
      file_hash st.1 p := by
  simp only [index_step]
  split
  · rfl
  · split
    · rfl
    · refine (file_hash_insert_other _ _ _ hne).trans ?_
      refine (uref_fold_file_hash _ _ _ _).trans ?_
      refine (edge_fold_file_hash _ _ _ _).trans ?_
      refine (node_fold_file_hash _ _ _).trans ?_
      refine (file_hash_insert_other _ _ _ hne).trans ?_
      exact file_hash_delete_other st.1 _ p hne

/-- After one walk-loop iteration on an eligible entry, the stored hash of
its relative path is the hash of its contents (both when the entry is
skipped by the change gate and when it is re-extracted). -/
theorem index_step_file_hash_self (cfg : IndexConfig) (hash : Str → Str)
    (extract : Str → Str → ExtractionResult) (now : Int)
    (st : DB × IndexStats) (e : Entry)
    (helig : entry_eligible cfg e = true) :
    file_hash (index_step cfg hash extract now st e).1
      (strip_root cfg.root e.path) = some (hash e.content) := by
  simp only [index_step]
  split
  · next h => exact absurd helig h
  · split
    · next hskip =>
      have hb : needs_reindex st.1 (strip_root cfg.root e.path)
          (hash e.content) = false := by
        cases hx : needs_reindex st.1 (strip_root cfg.root e.path)
            (hash e.content) with
        | false => rfl
        | true => exact absurd hx hskip
      exact (needs_reindex_false_iff _ _ _).mp hb
    · exact file_hash_insert_self _ _

/-- The walk loop leaves the stored hash of a path that is no entry's
relative path unchanged. -/
theorem index_fold_file_hash_other (cfg : IndexConfig) (hash : Str → Str)
    (extract : Str → Str → ExtractionResult) (now : Int)
    (entries : List Entry) (st : DB × IndexStats) (p : Str)
    (h : ∀ f ∈ entries, ¬ strip_root cfg.root f.path = p) :
    file_hash (entries.foldl (index_step cfg hash extract now) st).1 p =
      file_hash st.1 p := by
  induction entries generalizing st with
  | nil => rfl
  | cons a t ih =>
    rw [List.foldl_cons]
    refine (ih _ (fun f hf => h f (List.mem_cons_of_mem _ hf))).trans ?_
    exact index_step_file_hash_other cfg hash extract now st a p
      (h a (List.mem_cons_self _ _))

/-- After the walk loop, provided no two entries share a relative path,
every eligible entry's relative path stores the hash of that entry's
contents. -/
theorem index_fold_post (cfg : IndexConfig) (hash : Str → Str)
    (extract : Str → Str → ExtractionResult) (now : Int)
    (entries : List Entry) (st : DB × IndexStats)
    (hnd : (entries.map (fun e => strip_root cfg.root e.path)).Nodup) :
    ∀ e ∈ entries, entry_eligible cfg e = true →
      file_hash (entries.foldl (index_step cfg hash extract now) st).1
        (strip_root cfg.root e.path) = some (hash e.content) := by
  revert hnd
  induction entries generalizing st with
  | nil => intro _ e he; exact absurd he (List.not_mem_nil e)
  | cons a t ih =>
    intro hnd e he helig
    rw [List.map_cons] at hnd
    obtain ⟨hhead, htail⟩ := List.nodup_cons.mp hnd
    rw [List.foldl_cons]
    rcases List.mem_cons.mp he with rfl | he'
    · refine (index_fold_file_hash_other cfg hash extract now t _ _
        ?_).trans ?_
      · intro f hf hfp
        exact hhead (hfp ▸ List.mem_map_of_mem _ hf)
      · exact index_step_file_hash_self cfg hash extract now st e helig
    · exact ih _ htail e he' helig

/-- When every eligible entry's stored hash already matches, the walk loop
leaves the store untouched and only counts skips. -/
theorem index_fold_skip (cfg : IndexConfig) (hash : Str → Str)
    (extract : Str → Str → ExtractionResult) (now : Int)
    (entries : List Entry) (db : DB) (s : IndexStats)
    (h : ∀ e ∈ entries, entry_eligible cfg e = true →
        file_hash db (strip_root cfg.root e.path) = some (hash e.content)) :
    entries.foldl (index_step cfg hash extract now) (db, s) =
      (db, { s with skipped :=
        s.skipped + entries.countP (fun e => entry_eligible cfg e) }) := by
  revert h
  induction entries generalizing s with
  | nil => intro _; rfl
  | cons a t ih =>
    intro h
    rw [List.foldl_cons]
    by_cases helig : entry_eligible cfg a = true
    · have hnr : needs_reindex db (strip_root cfg.root a.path)
          (hash a.content) = false :=
        (needs_reindex_false_iff _ _ _).mpr
          (h a (List.mem_cons_self a t) helig)
      have hstep : index_step cfg hash extract now (db, s) a =
          (db, { s with skipped := s.skipped + 1 }) := by
        simp only [index_step]
        rw [if_neg (by simp [helig]), if_pos (by simp [hnr])]
      rw [hstep, ih _ (fun e he helig' => h e (List.mem_cons_of_mem _ he)
        helig')]
      dsimp only
      rw [List.countP_cons_of_pos _ _ helig]
      have harith : s.skipped + 1 + t.countP (fun e => entry_eligible cfg e) =
          s.skipped + (t.countP (fun e => entry_eligible cfg e) + 1) := by
        omega
      rw [harith]
    · have hstep : index_step cfg hash extract now (db, s) a = (db, s) := by
        simp only [index_step]
        rw [if_pos helig]
      rw [hstep, ih _ (fun e he helig' => h e (List.mem_cons_of_mem _ he)
        helig'), List.countP_cons_of_neg _ _ helig]

/-- `resolve_references` over an empty unresolved-reference table returns
the store unchanged and zero resolutions. -/
theorem resolve_references_empty (db : DB) (h : db.urefs = []) :
    resolve_references db = (db, 0) := by
  obtain ⟨f, n, e, u, a, b, c⟩ := db
  dsimp only at h
  subst h
  rfl

/-- A whole `index_codebase` pass over a store that already holds every
eligible entry's hash (and has no staged unresolved references) returns
the store unchanged: every file is skipped and the resolve pass resolves
nothing. -/
theorem index_codebase_skip (cfg : IndexConfig) (hash : Str → Str)
    (extract : Str → Str → ExtractionResult) (now : Int)
    (entries : List Entry) (db : DB) (hu : db.urefs = [])
    (h : ∀ e ∈ entries, entry_eligible cfg e = true →
        file_hash db (strip_root cfg.root e.path) = some (hash e.content)) :
    index_codebase cfg hash extract now db entries =
      (db,
       { files := 0
         nodes := 0
         edges := 0
         skipped := 0 + entries.countP (fun e => entry_eligible cfg e)
         errors := 0
         resolved_refs := 0 }) := by
  have hskip := index_fold_skip cfg hash extract now entries db {} h
  have hres := resolve_references_empty db hu
  simp only [index_codebase]
  rw [hskip]
  dsimp only
  rw [hres]

/-- C3: re-running `index_codebase` over the same walked entries with
every file's contents unchanged (no two entries sharing a relative path)
returns the store of the first run unchanged — in particular the file,
node and edge counts are exactly those after the first run — with
second-run statistics of zero indexed files, nodes and edges: the
content-hash gate skips every eligible entry and the resolve pass runs
over an empty unresolved-reference table, resolving nothing. -/
theorem c3_reindex_idempotent (cfg : IndexConfig) (hash : Str → Str)
    (extract : Str → Str → ExtractionResult) (now now2 : Int) (db0 : DB)
    (entries : List Entry)
    (hnd : (entries.map (fun e => strip_root cfg.root e.path)).Nodup) :
    (index_codebase cfg hash extract now2
        (index_codebase cfg hash extract now db0 entries).1 entries).1 =
      (index_codebase cfg hash extract now db0 entries).1 ∧
    total_files (index_codebase cfg hash extract now2
        (index_codebase cfg hash extract now db0 entries).1 entries).1 =
      total_files (index_codebase cfg hash extract now db0 entries).1 ∧
    total_nodes (index_codebase cfg hash extract now2
        (index_codebase cfg hash extract now db0 entries).1 entries).1 =
      total_nodes (index_codebase cfg hash extract now db0 entries).1 ∧
    total_edges (index_codebase cfg hash extract now2
        (index_codebase cfg hash extract now db0 entries).1 entries).1 =
      total_edges (index_codebase cfg hash extract now db0 entries).1 ∧
    (index_codebase cfg hash extract now2
        (index_codebase cfg hash extract now db0 entries).1 entries).2.files
      = 0 ∧
    (index_codebase cfg hash extract now2
        (index_codebase cfg hash extract now db0 entries).1 entries).2.nodes
      = 0 ∧
    (index_codebase cfg hash extract now2
        (index_codebase cfg hash extract now db0 entries).1 entries).2.edges
      = 0 ∧
    (index_codebase cfg hash extract now2
        (index_codebase cfg hash extract now db0 entries).1 entries).2.errors
      = 0 ∧
    (index_codebase cfg hash extract now2
        (index_codebase cfg hash extract now db0
          entries).1 entries).2.resolved_refs = 0 ∧
    (index_codebase cfg hash extract now2
        (index_codebase cfg hash extract now db0 entries).1 entries).2.skipped
      = entries.countP (fun e => entry_eligible cfg e) := by
  have hfiles : (index_codebase cfg hash extract now db0 entries).1.files =
      (entries.foldl (index_step cfg hash extract now)
        (db0, ({} : IndexStats))).1.files :=
    resolve_fold_files _ _
  have hpost := index_fold_post cfg hash extract now entries
    (db0, ({} : IndexStats)) hnd
  have hpost1 : ∀ e ∈ entries, entry_eligible cfg e = true →
      file_hash (index_codebase cfg hash extract now db0 entries).1
        (strip_root cfg.root e.path) = some (hash e.content) := by
    intro e he helig
    have hc : file_hash (index_codebase cfg hash extract now db0 entries).1
        (strip_root cfg.root e.path) =
        file_hash (entries.foldl (index_step cfg hash extract now)
          (db0, ({} : IndexStats))).1 (strip_root cfg.root e.path) := by
      simp only [file_hash, hfiles]
    exact hc.trans (hpost e he helig)
  have hrun2 := index_codebase_skip cfg hash extract now2 entries
    (index_codebase cfg hash extract now db0 entries).1 rfl hpost1
  rw [hrun2]
  exact ⟨rfl, rfl, rfl, rfl, rfl, rfl, rfl, rfl, rfl, Nat.zero_add _⟩

/-- Witness for `c3_reindex_idempotent` on the C3 fixture: one Rust file,
indexed twice from an empty store. -/
theorem c3_reindex_idempotent_witness :
    (([c3_entry].map (fun e => strip_root c3_cfg.root e.path)).Nodup) ∧
    (index_codebase c3_cfg c3_hash c3_extract 1
        (index_codebase c3_cfg c3_hash c3_extract 0 DB.empty [c3_entry]).1
        [c3_entry]).1 =
      (index_codebase c3_cfg c3_hash c3_extract 0 DB.empty [c3_entry]).1 :=
  ⟨by decide, (c3_reindex_idempotent c3_cfg c3_hash c3_extract 0 1 DB.empty
      [c3_entry] (by decide)).1⟩

end Codemap
